import Mathlib

/-! # Banter-Checkers: the rules engine of `src/Checkers.js`

A shallow embedding of the class `CheckersGame` (lines 90-366 of
`src/Checkers.js`) and of the snapshot functions `getBoardState` /
`loadBoardState`, followed by theorems about them.

Data model of the typed engine (the comment at line 101 of the source):
an 8x8 board whose cells are `null` or one of the one-character codes
`r`, `R`, `b`, `B`; `currentPlayer` is `red` or `black`; `selectedPiece`
is `null` or a `[row, col]` pair; `mustJump` is a boolean; `winner` is
`null`, `red` or `black`.  Coordinates are integers, so that the
out-of-range probes `row + rowDir` of the move generator are expressible.

The snapshot functions are embedded over untyped JavaScript values
(`JSValue`), because `loadBoardState` receives the output of `JSON.parse`.
-/

/-- The one-character piece codes: `r` red man, `R` red king, `b` black man,
`B` black king. -/
inductive Piece where
  | r
  | R
  | b
  | B
  deriving DecidableEq, Repr

/-- The JavaScript `piece.toLowerCase()` on a piece code. -/
def Piece.toLowerCase : Piece → Piece
  | .r => .r
  | .R => .r
  | .b => .b
  | .B => .b

/-- The JavaScript `piece.toUpperCase()` on a piece code. -/
def Piece.toUpperCase : Piece → Piece
  | .r => .R
  | .R => .R
  | .b => .B
  | .B => .B

/-- A board cell: `none` is the JavaScript `null` (empty). -/
abbrev Cell := Option Piece

/-- The two values of `currentPlayer` and `winner`: the strings `red` and `black`. -/
inductive Player where
  | red
  | black
  deriving DecidableEq, Repr

/-- The `type` field of a move object: the strings `move` (a step) and `jump`. -/
inductive MoveType where
  | move
  | jump
  deriving DecidableEq, Repr

/-- A move object `{ from, to, type, captures }` as built by `getValidMoves`.
The field `from_` is the source's `from`. -/
structure Move where
  from_ : Int × Int
  to_ : Int × Int
  type : MoveType
  captures : List (Int × Int)
  deriving DecidableEq, Repr

/-- The argument of `makeMove`: only `from` and `to` are read from it
(line 291). -/
structure MoveRequest where
  from_ : Int × Int
  to_ : Int × Int
  deriving DecidableEq, Repr

/-- The 8x8 board `this.board`. -/
abbrev Board := Fin 8 → Fin 8 → Cell

/-- The fields of a `CheckersGame` instance (constructor, lines 91-98).
`onMoveCallback` is `null` throughout the source and is left out. -/
structure CheckersGame where
  board : Board
  currentPlayer : Player
  selectedPiece : Option (Int × Int)
  mustJump : Bool
  winner : Option Player

namespace CheckersGame

/-- The loop range `for (let i = 0; i < 8; i++)`. -/
def indices : List Int := [0, 1, 2, 3, 4, 5, 6, 7]

/-- The raw index `this.board[row][col]`; the source evaluates it only for
`row` and `col` that passed a bounds check. -/
def boardAt (self : CheckersGame) (row col : Int) : Cell :=
  self.board (Fin.ofNat row.toNat) (Fin.ofNat col.toNat)

/-- Lines 134-137. -/
def getPiece (self : CheckersGame) (row col : Int) : Cell :=
  if row < 0 ∨ row ≥ 8 ∨ col < 0 ∨ col ≥ 8 then none
  else self.boardAt row col

/-- Lines 139-141: `this.board[row][col] = piece`.  The engine calls it only
with squares of a move taken from `getAllValidMoves`, which are in range. -/
def setPiece (self : CheckersGame) (row col : Int) (piece : Cell) : CheckersGame :=
  { self with
    board := fun i j => if (i.val : Int) = row ∧ (j.val : Int) = col then piece else self.board i j }

/-- Lines 143-148. -/
def isOwnPiece (self : CheckersGame) (piece : Cell) : Bool :=
  match piece with
  | none => false
  | some p =>
    let lower := p.toLowerCase
    (self.currentPlayer == Player.red && lower == Piece.r) ||
      (self.currentPlayer == Player.black && lower == Piece.b)

/-- Lines 150-155. -/
def isOpponentPiece (self : CheckersGame) (piece : Cell) : Bool :=
  match piece with
  | none => false
  | some p =>
    let lower := p.toLowerCase
    (self.currentPlayer == Player.red && lower == Piece.b) ||
      (self.currentPlayer == Player.black && lower == Piece.r)

/-- Lines 157-159. -/
def isKing (piece : Piece) : Bool :=
  piece == piece.toUpperCase

/-- Lines 103-123: an empty 8x8 board, then the two placement loops. -/
def createInitialBoard : Board :=
  let board : Board := fun _ _ => none
  let place (piece : Piece) (rows : List Int) (board : Board) : Board :=
    rows.foldl (fun board row =>
      indices.foldl (fun board col =>
        if (row + col) % 2 = 1 then
          fun i j => if (i.val : Int) = row ∧ (j.val : Int) = col then some piece else board i j
        else board) board) board
  let board := place Piece.b [0, 1, 2] board
  let board := place Piece.r [5, 6, 7] board
  board

/-- The constructor (lines 91-98); `reset` (lines 126-132) assigns the same
five values. -/
def new : CheckersGame :=
  { board := createInitialBoard
    currentPlayer := Player.red
    selectedPiece := none
    mustJump := false
    winner := none }

/-- Lines 126-132. -/
def reset (_self : CheckersGame) : CheckersGame :=
  { board := createInitialBoard
    currentPlayer := Player.red
    selectedPiece := none
    mustJump := false
    winner := none }

/-- The body of the inner loop of `getValidMoves` (lines 175-205) for one
`rowDir` and one `colDir`: the accumulator `moves` after the two conditional
pushes. -/
def probeDirection (self : CheckersGame) (row col rowDir colDir : Int)
    (moves : List Move) : List Move :=
  let newRow := row + rowDir
  let newCol := col + colDir
  let moves :=
    if newRow ≥ 0 ∧ newRow < 8 ∧ newCol ≥ 0 ∧ newCol < 8 then
      if self.boardAt newRow newCol = none then
        moves ++ [{ from_ := (row, col), to_ := (newRow, newCol), type := MoveType.move, captures := [] }]
      else moves
    else moves
  let midRow := row + rowDir
  let midCol := col + colDir
  let jumpRow := row + rowDir * 2
  let jumpCol := col + colDir * 2
  if jumpRow ≥ 0 ∧ jumpRow < 8 ∧ jumpCol ≥ 0 ∧ jumpCol < 8 then
    let midPiece := self.getPiece midRow midCol
    let jumpPiece := self.getPiece jumpRow jumpCol
    if self.isOpponentPiece midPiece = true ∧ jumpPiece = none then
      moves ++ [{ from_ := (row, col), to_ := (jumpRow, jumpCol), type := MoveType.jump,
                  captures := [(midRow, midCol)] }]
    else moves
  else moves

/-- Line 170: red moves up (negative row), black moves down (positive row),
a king both ways. -/
def directions (piece : Piece) : List Int :=
  let isKing := isKing piece
  let isRed := piece.toLowerCase == Piece.r
  if isKing then [-1, 1] else (if isRed then [-1] else [1])

/-- Lines 161-210. -/
def getValidMoves (self : CheckersGame) (row col : Int) : List Move :=
  match self.getPiece row col with
  | none => []
  | some piece =>
    if !self.isOwnPiece (some piece) then []
    else
      (directions piece).foldl (fun moves rowDir =>
        ([-1, 1] : List Int).foldl (fun moves colDir =>
          self.probeDirection row col rowDir colDir moves) moves) []

/-- Lines 224-234: the body of the scan of `getAllValidMoves` at one square.
The pair of accumulators is `(allMoves, allJumps)`. -/
def collectSquare (self : CheckersGame) (row col : Int)
    (acc : List Move × List Move) : List Move × List Move :=
  match self.getPiece row col with
  | none => acc
  | some piece =>
    if self.isOwnPiece (some piece) then
      (self.getValidMoves row col).foldl (fun acc move =>
        if move.type == MoveType.jump then (acc.1, acc.2 ++ [move])
        else (acc.1 ++ [move], acc.2)) acc
    else acc

/-- Lines 219-236: the scan of the 64 squares, `(allMoves, allJumps)`. -/
def scanBoard (self : CheckersGame) : List Move × List Move :=
  indices.foldl (fun acc row =>
    indices.foldl (fun acc col => self.collectSquare row col acc) acc) ([], [])

/-- Lines 212-240. -/
def getAllValidMoves (self : CheckersGame) : List Move :=
  match self.mustJump, self.selectedPiece with
  | true, some (row, col) =>
    (self.getValidMoves row col).filter (fun m => m.type == MoveType.jump)
  | _, _ =>
    let acc := self.scanBoard
    if acc.2.length > 0 then acc.2 else acc.1

/-- Lines 242-248. -/
def canContinueJumping (self : CheckersGame) (row col : Int) : Bool :=
  match self.getPiece row col with
  | none => false
  | some _ =>
    let moves := self.getValidMoves row col
    moves.any (fun move => move.type == MoveType.jump)

/-- Lines 255-259: the body of the scan of `countPieces` at one square; the
pair of counters is `(red, black)`. -/
def countSquare (self : CheckersGame) (r c : Int) (acc : Nat × Nat) : Nat × Nat :=
  match self.getPiece r c with
  | none => acc
  | some piece =>
    if piece.toLowerCase = Piece.r then (acc.1 + 1, acc.2)
    else if piece.toLowerCase = Piece.b then (acc.1, acc.2 + 1)
    else acc

/-- Lines 250-263: the pair is `(red, black)`. -/
def countPieces (self : CheckersGame) : Nat × Nat :=
  indices.foldl (fun acc r =>
    indices.foldl (fun acc c => self.countSquare r c acc) acc) (0, 0)

/-- The expression `this.currentPlayer === 'red' ? 'black' : 'red'`
(lines 283 and 332). -/
def other (p : Player) : Player :=
  if p = Player.red then Player.black else Player.red

/-- Lines 265-286. -/
def checkWinCondition (self : CheckersGame) : CheckersGame :=
  if self.winner.isSome then self
  else
    let (red, black) := self.countPieces
    if red = 0 then { self with winner := some Player.black }
    else if black = 0 then { self with winner := some Player.red }
    else
      let validMoves := self.getAllValidMoves
      if validMoves.length = 0 then { self with winner := some (other self.currentPlayer) }
      else self

/-- Lines 299-303: the member of the legal set that the request names. -/
def findMove (self : CheckersGame) (move : MoveRequest) : Option Move :=
  let fromRow := move.from_.1
  let fromCol := move.from_.2
  let toRow := move.to_.1
  let toCol := move.to_.2
  let validMoves := self.getAllValidMoves
  validMoves.find? (fun m =>
    m.from_.1 == fromRow && m.from_.2 == fromCol && m.to_.1 == toRow && m.to_.2 == toCol)

/-- Lines 319-323 as a function of the piece: what stands on the destination
after the promotion check when `piece` was written there. -/
def promoted (piece : Piece) (toRow : Int) : Piece :=
  if piece.toLowerCase == Piece.r && toRow == 0 then Piece.R
  else if piece.toLowerCase == Piece.b && toRow == 7 then Piece.B
  else piece

/-- Lines 307-323: the board update of a matched move `fullMove` made by
`piece` (execute, captures, promotion). -/
def executeMove (self : CheckersGame) (move : MoveRequest) (piece : Piece)
    (fullMove : Move) : CheckersGame :=
  let fromRow := move.from_.1
  let fromCol := move.from_.2
  let toRow := move.to_.1
  let toCol := move.to_.2
  -- Execute move
  let self := self.setPiece toRow toCol (some piece)
  let self := self.setPiece fromRow fromCol none
  -- Handle captures
  let self :=
    if fullMove.type == MoveType.jump then
      fullMove.captures.foldl (fun self cap => self.setPiece cap.1 cap.2 none) self
    else self
  -- Check for king promotion
  if piece.toLowerCase == Piece.r && toRow == 0 then
    self.setPiece toRow toCol (some Piece.R)
  else if piece.toLowerCase == Piece.b && toRow == 7 then
    self.setPiece toRow toCol (some Piece.B)
  else self

/-- Lines 325-336: the multi-jump check, on the engine whose board is already
updated. -/
def finishMove (self : CheckersGame) (move : MoveRequest) (fullMove : Move) : CheckersGame :=
  let toRow := move.to_.1
  let toCol := move.to_.2
  if fullMove.type == MoveType.jump && self.canContinueJumping toRow toCol then
    -- Don't switch player, allow continuation
    { self with mustJump := true, selectedPiece := some (toRow, toCol) }
  else
    -- Switch player
    checkWinCondition
      { self with
        currentPlayer := other self.currentPlayer
        mustJump := false
        selectedPiece := none }

/-- Lines 288-343.  The result is the returned boolean and the engine after
the call. -/
def makeMove (self : CheckersGame) (move : MoveRequest) : Bool × CheckersGame :=
  if self.winner.isSome then (false, self)
  else
    let fromRow := move.from_.1
    let fromCol := move.from_.2
    match self.getPiece fromRow fromCol with
    | none => (false, self)
    | some piece =>
      if !self.isOwnPiece (some piece) then (false, self)
      else
        match self.findMove move with
        | none => (false, self)
        | some fullMove =>
          (true, (self.executeMove move piece fullMove).finishMove move fullMove)

end CheckersGame

/-! ## Snapshots: JavaScript values -/

/-- A JavaScript value as `JSON.parse` produces it, or as a property read
returns it (`undefined` for a missing property).  Numbers are the integers. -/
inductive JSValue where
  | undefined
  | null
  | bool (b : Bool)
  | num (n : Int)
  | str (s : String)
  | arr (items : List JSValue)
  | obj (props : List (String × JSValue))

/-- The exception a failing JavaScript operation throws. -/
inductive JSError where
  | typeError
  deriving DecidableEq, Repr

namespace JSValue

/-- The JavaScript `ToBoolean`: `undefined`, `null`, `false`, `0` and the empty
string are falsy. -/
def truthy : JSValue → Bool
  | undefined => false
  | null => false
  | bool b => b
  | num n => n != 0
  | str s => s != ""
  | arr _ => true
  | obj _ => true

/-- The expression `a || d`. -/
def orElse (a d : JSValue) : JSValue :=
  if a.truthy then a else d

/-- The value stored under `name` in the property list of an object (each
name occurs at most once in an object), `undefined` when there is none. -/
def lookup (name : String) : List (String × JSValue) → JSValue
  | [] => undefined
  | (key, value) :: rest => if key = name then value else lookup name rest

/-- The property read `v.name`, for the five snapshot field names: it throws
on `null` and `undefined`, reads the property of an object, and is `undefined`
on the other values (none of the five names is a property of a boolean,
number, string or array). -/
def getProp (v : JSValue) (name : String) : Except JSError JSValue :=
  match v with
  | undefined => .error JSError.typeError
  | null => .error JSError.typeError
  | obj props => .ok (lookup name props)
  | _ => .ok undefined

/-- The spread `[...row]`: arrays and strings are iterable (a string yields
its characters), every other value throws. -/
def spread : JSValue → Except JSError (List JSValue)
  | arr items => .ok items
  | str s => .ok (s.toList.map (fun ch => str ch.toString))
  | _ => .error JSError.typeError

/-- The call `rows.map(row => [...row])` on the elements of an array, left to
right; the first throwing callback aborts it. -/
def copyRows : List JSValue → Except JSError (List JSValue)
  | [] => .ok []
  | row :: rest =>
    match spread row with
    | .error e => .error e
    | .ok items =>
      match copyRows rest with
      | .error e => .error e
      | .ok copied => .ok (arr items :: copied)

/-- The expression `v.map(row => [...row])`: `map` exists on arrays only. -/
def mapSpread : JSValue → Except JSError JSValue
  | arr rows =>
    match copyRows rows with
    | .error e => .error e
    | .ok copied => .ok (arr copied)
  | _ => .error JSError.typeError

end JSValue

/-- The five data fields of the engine object `this`, as JavaScript values:
what `loadBoardState` writes and `getBoardState` reads. -/
structure EngineObject where
  board : JSValue
  currentPlayer : JSValue
  selectedPiece : JSValue
  mustJump : JSValue
  winner : JSValue

namespace EngineObject

/-- Lines 349-357.  The snapshot object, or the exception of `this.board.map`. -/
def getBoardState (self : EngineObject) : Except JSError JSValue :=
  match self.board.mapSpread with
  | .error e => .error e
  | .ok board =>
    .ok (JSValue.obj
      [("board", board),
       ("currentPlayer", self.currentPlayer),
       ("mustJump", self.mustJump),
       ("selectedPiece", self.selectedPiece),
       ("winner", self.winner)])

/-- Lines 359-365, statement by statement.  The result is how the call
completes (normally, or with the exception it throws to its caller) and the
engine object at that moment. -/
def loadBoardState (self : EngineObject) (state : JSValue) :
    Except JSError Unit × EngineObject :=
  -- this.board = state.board.map(row => [...row]);
  match state.getProp "board" with
  | .error e => (.error e, self)
  | .ok b =>
  match b.mapSpread with
  | .error e => (.error e, self)
  | .ok board =>
  let self := { self with board := board }
  -- this.currentPlayer = state.currentPlayer;
  match state.getProp "currentPlayer" with
  | .error e => (.error e, self)
  | .ok currentPlayer =>
  let self := { self with currentPlayer := currentPlayer }
  -- this.mustJump = state.mustJump || false;
  match state.getProp "mustJump" with
  | .error e => (.error e, self)
  | .ok mustJump =>
  let self := { self with mustJump := mustJump.orElse (JSValue.bool false) }
  -- this.selectedPiece = state.selectedPiece || null;
  match state.getProp "selectedPiece" with
  | .error e => (.error e, self)
  | .ok selectedPiece =>
  let self := { self with selectedPiece := selectedPiece.orElse JSValue.null }
  -- this.winner = state.winner || null;
  match state.getProp "winner" with
  | .error e => (.error e, self)
  | .ok winner =>
  let self := { self with winner := winner.orElse JSValue.null }
  (.ok (), self)

end EngineObject

/-- The one-character string of a piece code. -/
def Piece.code : Piece → String
  | .r => "r"
  | .R => "R"
  | .b => "b"
  | .B => "B"

/-- The string value of a player. -/
def Player.name : Player → String
  | .red => "red"
  | .black => "black"

namespace CheckersGame

/-- A cell as a JavaScript value: `null` or the piece's string. -/
def cellToJS : Cell → JSValue
  | none => JSValue.null
  | some p => JSValue.str p.code

/-- The engine object of a typed engine: the board as an array of 8 arrays of
8 cells, the players as strings, `selectedPiece` as `null` or `[row, col]`. -/
def toJS (self : CheckersGame) : EngineObject :=
  { board := JSValue.arr (List.ofFn (fun i => JSValue.arr (List.ofFn (fun j => cellToJS (self.board i j)))))
    currentPlayer := JSValue.str self.currentPlayer.name
    selectedPiece :=
      match self.selectedPiece with
      | none => JSValue.null
      | some (row, col) => JSValue.arr [JSValue.num row, JSValue.num col]
    mustJump := JSValue.bool self.mustJump
    winner :=
      match self.winner with
      | none => JSValue.null
      | some p => JSValue.str p.name }

/-- The states reachable from the starting position by `makeMove` calls
(whatever they return). -/
inductive Reachable : CheckersGame → Prop where
  | start : Reachable CheckersGame.new
  | step (self : CheckersGame) (move : MoveRequest) :
      Reachable self → Reachable (self.makeMove move).2

/-- The engine after a sequence of `makeMove` calls, whatever each returns. -/
def play (self : CheckersGame) (moves : List MoveRequest) : CheckersGame :=
  moves.foldl (fun game move => (game.makeMove move).2) self

end CheckersGame

/-! ## Test positions -/

namespace CheckersGame

/-- An engine with an empty board, no continuation and no winner, for building
test positions. -/
def emptyGame (player : Player) : CheckersGame :=
  { board := fun _ _ => none
    currentPlayer := player
    selectedPiece := none
    mustJump := false
    winner := none }

/-- The second scenario of the specification: a lone red man at `[3,2]`, a lone
black man at `[2,3]`, red to move. -/
def loneJump : CheckersGame :=
  ((emptyGame Player.red).setPiece 3 2 (some Piece.r)).setPiece 2 3 (some Piece.b)

/-- A red man at `[4,1]` with black men at `[3,2]` and `[1,4]`, red to move:
the jump to `[2,3]` leaves a further jump to `[0,5]`. -/
def doubleJump : CheckersGame :=
  (((emptyGame Player.red).setPiece 4 1 (some Piece.r)).setPiece 3 2 (some Piece.b)).setPiece
    1 4 (some Piece.b)

/-- A red man at `[1,2]` one step from its crowning row and a black man at
`[6,1]` one step from its own, red to move. -/
def nearCrown : CheckersGame :=
  ((emptyGame Player.red).setPiece 1 2 (some Piece.r)).setPiece 6 1 (some Piece.b)

/-- A black man at `[0,1]` hemmed in by red men at `[1,0]`, `[1,2]` and `[2,3]`,
and a free red man at `[5,0]`, red to move. -/
def hemmedIn : CheckersGame :=
  (((((emptyGame Player.red).setPiece 0 1 (some Piece.b)).setPiece 1 0 (some Piece.r)).setPiece
    1 2 (some Piece.r)).setPiece 2 3 (some Piece.r)).setPiece 5 0 (some Piece.r)

/-- Six requests from the starting position, all accepted, ending in the middle
of a black double jump: the black man that landed on `[3,2]` must jump again. -/
def openingChain : List MoveRequest :=
  [⟨(5, 0), (4, 1)⟩, ⟨(2, 1), (3, 0)⟩, ⟨(5, 4), (4, 3)⟩, ⟨(2, 3), (3, 2)⟩,
   ⟨(4, 1), (2, 3)⟩, ⟨(1, 4), (3, 2)⟩]

end CheckersGame

/-! ## Well-formed snapshots, in the words of the specification -/

namespace JSValue

/-- Section 6 of the specification: a cell is empty or one of `r`, `R`, `b`, `B`. -/
def validCell : JSValue → Bool
  | null => true
  | str s => s == "r" || s == "R" || s == "b" || s == "B"
  | _ => false

/-- Section 6 of the specification: a row is 8 ordered cells. -/
def validRow : JSValue → Bool
  | arr cells => cells.length == 8 && cells.all validCell
  | _ => false

/-- Section 6 of the specification: the board is 8 ordered rows. -/
def validBoard : JSValue → Bool
  | arr rows => rows.length == 8 && rows.all validRow
  | _ => false

/-- Section 6 of the specification: `currentPlayer` is `red` or `black`. -/
def validPlayer : JSValue → Bool
  | str s => s == "red" || s == "black"
  | _ => false

/-- Section 6 of the specification: `winner` is `red`, `black` or null. -/
def validWinner : JSValue → Bool
  | null => true
  | v => validPlayer v

/-- Section 6 of the specification: the continuation is null or an in-range
`[row, col]` pair. -/
def validContinuation : JSValue → Bool
  | null => true
  | arr [num row, num col] => decide (0 ≤ row ∧ row < 8 ∧ 0 ≤ col ∧ col < 8)
  | _ => false

/-- A snapshot that is structurally valid in the sense of section 6 of the
specification: an object whose board, currentPlayer, continuation and winner
are all well formed. -/
def validSnapshot : JSValue → Bool
  | obj props =>
    validBoard (lookup "board" props) && validPlayer (lookup "currentPlayer" props) &&
      validContinuation (lookup "selectedPiece" props) && validWinner (lookup "winner" props)
  | _ => false

/-- A snapshot that is malformed in every field: a board of one row of one
unknown cell, an unknown player, an out-of-range continuation and an unknown
winner. -/
def corruptSnapshot : JSValue :=
  obj
    [("board", arr [arr [str "x"]]),
     ("currentPlayer", str "green"),
     ("mustJump", bool true),
     ("selectedPiece", arr [num 9, num 9]),
     ("winner", str "blue")]

end JSValue

/-! ## Square naming (lines 466-476) -/

/-- Lines 467 and 472: the array `files`. -/
def files : List String := ["a", "b", "c", "d", "e", "f", "g", "h"]

/-- The read `files[col]` inside a template literal: the file letter, or the
text `undefined` when `col` is no index of the array. -/
def fileText (col : Int) : String :=
  if 0 ≤ col then (files.get? col.toNat).getD "undefined" else "undefined"

/-- Lines 466-469: the template literal of `files[col]` and `8 - row`. -/
def rowColToSquare (row col : Int) : String :=
  fileText col ++ toString (8 - row)

/-- Line 473, `files.indexOf(square[0])`: the index of the first UTF-16 unit of
`square` among the files, and -1 when the string is empty or that unit is no
file letter. -/
def fileIndex (square : String) : Int :=
  match square.toList with
  | [] => -1
  | ch :: _ =>
    let i := files.indexOf ch.toString
    if i < files.length then (i : Int) else -1

/-- Line 474, `parseInt(square[1])`: the value of the second UTF-16 unit of
`square` when it is a decimal digit; `none` stands for `NaN` (there is no second
unit, or it is not a digit, as when the first character takes two units). -/
def rankDigit (square : String) : Option Int :=
  match square.toList with
  | c0 :: c1 :: _ =>
    if c0.val < 65536 then
      if c1.isDigit then some ((c1.toNat : Int) - 48) else none
    else none
  | _ => none

/-- Lines 471-476: the pair `[row, col]`, where a `none` row is `NaN`. -/
def squareToRowCol (square : String) : Option Int × Int :=
  let col := fileIndex square
  let row := (rankDigit square).map (fun rank => 8 - rank)
  (row, col)

/-- The loop range of the ranks `1..8` of a square identifier. -/
def ranks : List Int := [1, 2, 3, 4, 5, 6, 7, 8]

/-! ## A crowning position, cell weights and the board invariant -/

namespace CheckersGame

/-- A red man at `[2,1]` with black men at `[1,2]` and `[1,4]`, red to move: the
jump to `[0,3]` crowns the man. -/
def crownChain : CheckersGame :=
  (((emptyGame Player.red).setPiece 2 1 (some Piece.r)).setPiece 1 2 (some Piece.b)).setPiece
    1 4 (some Piece.b)

/-- What one cell adds to the red counter of `countPieces` (line 257). -/
def redIn (cell : Cell) : Nat :=
  match cell with
  | none => 0
  | some piece => if piece.toLowerCase = Piece.r then 1 else 0

/-- What one cell adds to the black counter of `countPieces` (line 258). -/
def blackIn (cell : Cell) : Nat :=
  match cell with
  | none => 0
  | some piece =>
    if piece.toLowerCase = Piece.r then 0
    else if piece.toLowerCase = Piece.b then 1
    else 0

/-- The board invariant of section 3 of the specification: every occupied
square is playable, neither colour has more than 12 pieces, no red man stands
on row 0 and no black man on row 7. -/
def BoardInvariant (self : CheckersGame) : Prop :=
  (∀ row col piece, self.getPiece row col = some piece → (row + col) % 2 = 1) ∧
    self.countPieces.1 ≤ 12 ∧
    self.countPieces.2 ≤ 12 ∧
    (∀ col, self.getPiece 0 col ≠ some Piece.r) ∧
    (∀ col, self.getPiece 7 col ≠ some Piece.b)

end CheckersGame

/-! ## Lemmas on the board accessors -/

namespace CheckersGame

theorem mem_indices (x : Int) : x ∈ indices ↔ 0 ≤ x ∧ x < 8 := by
  simp only [indices, List.mem_cons, List.mem_singleton, List.not_mem_nil, or_false]
  omega

theorem fin_val_ofNat (r : Int) (h0 : 0 ≤ r) (h8 : r < 8) :
    (((Fin.ofNat r.toNat : Fin 8).val : Nat) : Int) = r := by
  simp [Fin.ofNat]
  omega

theorem getPiece_inRange (self : CheckersGame) (row col : Int)
    (h : 0 ≤ row ∧ row < 8 ∧ 0 ≤ col ∧ col < 8) :
    self.getPiece row col = self.boardAt row col := by
  unfold getPiece
  rw [if_neg]
  omega

theorem getPiece_outOfRange (self : CheckersGame) (row col : Int)
    (h : ¬ (0 ≤ row ∧ row < 8 ∧ 0 ≤ col ∧ col < 8)) :
    self.getPiece row col = none := by
  unfold getPiece
  rw [if_pos]
  omega

theorem inRange_of_getPiece_some (self : CheckersGame) (row col : Int) (p : Piece)
    (h : self.getPiece row col = some p) : 0 ≤ row ∧ row < 8 ∧ 0 ≤ col ∧ col < 8 := by
  by_contra hc
  rw [getPiece_outOfRange self row col hc] at h
  cases h

theorem getPiece_setPiece (self : CheckersGame) (row col : Int) (piece : Cell) (r c : Int)
    (h : 0 ≤ r ∧ r < 8 ∧ 0 ≤ c ∧ c < 8) :
    (self.setPiece row col piece).getPiece r c =
      if r = row ∧ c = col then piece else self.getPiece r c := by
  rw [getPiece_inRange _ r c h, getPiece_inRange _ r c h]
  unfold boardAt setPiece
  simp only [fin_val_ofNat r h.1 h.2.1, fin_val_ofNat c h.2.2.1 h.2.2.2]

theorem getPiece_setPiece_ne (self : CheckersGame) (row col : Int) (piece : Cell) (r c : Int)
    (h : ¬ (r = row ∧ c = col)) :
    (self.setPiece row col piece).getPiece r c = self.getPiece r c := by
  by_cases hr : 0 ≤ r ∧ r < 8 ∧ 0 ≤ c ∧ c < 8
  · rw [getPiece_setPiece _ _ _ _ _ _ hr, if_neg h]
  · rw [getPiece_outOfRange _ r c hr, getPiece_outOfRange _ r c hr]

theorem getPiece_setPiece_self (self : CheckersGame) (row col : Int) (piece : Cell)
    (h : 0 ≤ row ∧ row < 8 ∧ 0 ≤ col ∧ col < 8) :
    (self.setPiece row col piece).getPiece row col = piece := by
  rw [getPiece_setPiece _ _ _ _ _ _ h, if_pos ⟨rfl, rfl⟩]

end CheckersGame

/-! ## Lemmas on the move generator -/

namespace CheckersGame

/-- A loop that only appends to its accumulator yields the initial
accumulator followed by what each iteration appends. -/
theorem foldl_push {β : Type} (f : β → List Move → List Move)
    (hf : ∀ d moves, f d moves = moves ++ f d []) (l : List β) (init : List Move) :
    l.foldl (fun moves d => f d moves) init = init ++ l.flatMap (fun d => f d []) := by
  induction l generalizing init with
  | nil => simp
  | cons d rest ih =>
    simp only [List.foldl_cons, List.flatMap_cons]
    rw [ih, hf d init, List.append_assoc]

theorem probeDirection_append (self : CheckersGame) (row col rowDir colDir : Int)
    (moves : List Move) :
    self.probeDirection row col rowDir colDir moves =
      moves ++ self.probeDirection row col rowDir colDir [] := by
  unfold probeDirection
  simp only []
  split_ifs <;> simp

/-- The two candidate moves of one direction. -/
theorem mem_probeDirection (self : CheckersGame) (row col rowDir colDir : Int) (m : Move) :
    m ∈ self.probeDirection row col rowDir colDir [] ↔
      (m = { from_ := (row, col), to_ := (row + rowDir, col + colDir),
             type := MoveType.move, captures := [] } ∧
        (0 ≤ row + rowDir ∧ row + rowDir < 8 ∧ 0 ≤ col + colDir ∧ col + colDir < 8) ∧
        self.getPiece (row + rowDir) (col + colDir) = none) ∨
      (m = { from_ := (row, col), to_ := (row + rowDir * 2, col + colDir * 2),
             type := MoveType.jump, captures := [(row + rowDir, col + colDir)] } ∧
        (0 ≤ row + rowDir * 2 ∧ row + rowDir * 2 < 8 ∧
          0 ≤ col + colDir * 2 ∧ col + colDir * 2 < 8) ∧
        self.isOpponentPiece (self.getPiece (row + rowDir) (col + colDir)) = true ∧
        self.getPiece (row + rowDir * 2) (col + colDir * 2) = none) := by
  unfold probeDirection
  simp only [ge_iff_le]
  by_cases h1 : 0 ≤ row + rowDir ∧ row + rowDir < 8 ∧ 0 ≤ col + colDir ∧ col + colDir < 8
  · rw [getPiece_inRange self _ _ h1]
    by_cases h2 : 0 ≤ row + rowDir * 2 ∧ row + rowDir * 2 < 8 ∧
        0 ≤ col + colDir * 2 ∧ col + colDir * 2 < 8
    · simp only [h1, h2, and_self, if_true, true_and]
      split_ifs <;> simp_all
    · simp only [h1, h2, and_self, if_true, if_false, true_and, false_and, and_false, or_false]
      split_ifs <;> simp_all
  · by_cases h2 : 0 ≤ row + rowDir * 2 ∧ row + rowDir * 2 < 8 ∧
        0 ≤ col + colDir * 2 ∧ col + colDir * 2 < 8
    · simp only [h1, h2, and_self, if_true, if_false, true_and, false_and, and_false, false_or]
      split_ifs <;> simp_all
    · simp [h1, h2]

theorem getValidMoves_eq (self : CheckersGame) (row col : Int) :
    self.getValidMoves row col =
      match self.getPiece row col with
      | none => []
      | some piece =>
        if !self.isOwnPiece (some piece) then []
        else
          (directions piece).flatMap (fun rowDir =>
            ([-1, 1] : List Int).flatMap (fun colDir =>
              self.probeDirection row col rowDir colDir [])) := by
  unfold getValidMoves
  cases self.getPiece row col with
  | none => rfl
  | some piece =>
    simp only []
    split_ifs
    · rfl
    · have inner : ∀ (rowDir : Int) (moves : List Move),
          ([-1, 1] : List Int).foldl (fun moves colDir =>
            self.probeDirection row col rowDir colDir moves) moves =
          moves ++ ([-1, 1] : List Int).flatMap (fun colDir =>
            self.probeDirection row col rowDir colDir []) := fun rowDir moves =>
        foldl_push (fun colDir moves => self.probeDirection row col rowDir colDir moves)
          (fun d ms => probeDirection_append self row col rowDir d ms) _ moves
      have outer := foldl_push
        (fun rowDir moves => ([-1, 1] : List Int).foldl (fun moves colDir =>
            self.probeDirection row col rowDir colDir moves) moves)
        (fun d ms => by
          simp only []
          rw [inner d ms, inner d []]
          simp) (directions piece) []
      simpa [inner] using outer

/-- Membership in `getValidMoves`: the square holds a piece of the player to
move, and the move is a candidate of one of that piece's directions. -/
theorem mem_getValidMoves (self : CheckersGame) (row col : Int) (m : Move) :
    m ∈ self.getValidMoves row col ↔
      ∃ piece, self.getPiece row col = some piece ∧ self.isOwnPiece (some piece) = true ∧
        ∃ rowDir ∈ directions piece, ∃ colDir : Int, (colDir = -1 ∨ colDir = 1) ∧
          m ∈ self.probeDirection row col rowDir colDir [] := by
  rw [getValidMoves_eq]
  cases hp : self.getPiece row col with
  | none => simp
  | some piece =>
    by_cases hown : self.isOwnPiece (some piece) = true
    · simp only [hown, Bool.not_true, Bool.false_eq_true, if_false, List.mem_flatMap,
        Option.some.injEq, exists_eq_left', true_and, List.mem_cons, List.mem_singleton,
        List.not_mem_nil, or_false]
    · simp [hown]

theorem directions_abs (piece : Piece) (rowDir : Int) (h : rowDir ∈ directions piece) :
    rowDir = -1 ∨ rowDir = 1 := by
  cases piece <;> simp [directions, isKing, Piece.toUpperCase, Piece.toLowerCase] at h <;> omega

end CheckersGame

/-! ## Lemmas on the legal set -/

namespace CheckersGame

theorem getValidMoves_of_none (self : CheckersGame) (row col : Int)
    (h : self.getPiece row col = none) : self.getValidMoves row col = [] := by
  unfold getValidMoves
  rw [h]

theorem getValidMoves_of_not_own (self : CheckersGame) (row col : Int) (piece : Piece)
    (h : self.getPiece row col = some piece) (hown : self.isOwnPiece (some piece) = false) :
    self.getValidMoves row col = [] := by
  unfold getValidMoves
  rw [h]
  simp [hown]

/-- The `forEach` of lines 227-233 splits a move list into steps and jumps. -/
theorem foldl_partition (moves : List Move) (acc : List Move × List Move) :
    moves.foldl (fun acc move =>
        if move.type == MoveType.jump then (acc.1, acc.2 ++ [move])
        else (acc.1 ++ [move], acc.2)) acc =
      (acc.1 ++ moves.filter (fun m => !(m.type == MoveType.jump)),
       acc.2 ++ moves.filter (fun m => m.type == MoveType.jump)) := by
  induction moves generalizing acc with
  | nil => simp
  | cons m rest ih =>
    simp only [List.foldl_cons]
    rw [ih]
    by_cases hm : (m.type == MoveType.jump) = true
    · simp [hm]
    · simp [hm]

theorem foldl_pair {β : Type} (f : β → List Move × List Move → List Move × List Move)
    (g h : β → List Move) (hf : ∀ d acc, f d acc = (acc.1 ++ g d, acc.2 ++ h d))
    (l : List β) (init : List Move × List Move) :
    l.foldl (fun acc d => f d acc) init = (init.1 ++ l.flatMap g, init.2 ++ l.flatMap h) := by
  induction l generalizing init with
  | nil => simp
  | cons d rest ih =>
    simp only [List.foldl_cons, List.flatMap_cons]
    rw [ih, hf d init]
    simp

theorem collectSquare_eq (self : CheckersGame) (row col : Int)
    (acc : List Move × List Move) :
    self.collectSquare row col acc =
      (acc.1 ++ (self.getValidMoves row col).filter (fun m => !(m.type == MoveType.jump)),
       acc.2 ++ (self.getValidMoves row col).filter (fun m => m.type == MoveType.jump)) := by
  unfold collectSquare
  cases hp : self.getPiece row col with
  | none => simp [getValidMoves_of_none self row col hp]
  | some piece =>
    by_cases hown : self.isOwnPiece (some piece) = true
    · simp only [hown, if_true]
      exact foldl_partition _ acc
    · simp only [Bool.not_eq_true] at hown
      simp [hown, getValidMoves_of_not_own self row col piece hp hown]

theorem scan_eq (self : CheckersGame) (rows cols : List Int) :
    rows.foldl (fun acc row =>
        cols.foldl (fun acc col => self.collectSquare row col acc) acc) ([], []) =
      (rows.flatMap (fun row => cols.flatMap (fun col =>
          (self.getValidMoves row col).filter (fun m => !(m.type == MoveType.jump)))),
       rows.flatMap (fun row => cols.flatMap (fun col =>
          (self.getValidMoves row col).filter (fun m => m.type == MoveType.jump)))) := by
  have inner : ∀ (row : Int) (acc : List Move × List Move),
      cols.foldl (fun acc col => self.collectSquare row col acc) acc =
        (acc.1 ++ cols.flatMap (fun col =>
            (self.getValidMoves row col).filter (fun m => !(m.type == MoveType.jump))),
         acc.2 ++ cols.flatMap (fun col =>
            (self.getValidMoves row col).filter (fun m => m.type == MoveType.jump))) :=
    fun row acc =>
      foldl_pair (fun col acc => self.collectSquare row col acc) _ _
        (fun col acc => collectSquare_eq self row col acc) cols acc
  have outer := foldl_pair
    (fun row acc => cols.foldl (fun acc col => self.collectSquare row col acc) acc) _ _
    (fun row acc => inner row acc) rows ([], [])
  simpa using outer

theorem scanBoard_eq (self : CheckersGame) :
    self.scanBoard =
      (indices.flatMap (fun row => indices.flatMap (fun col =>
          (self.getValidMoves row col).filter (fun m => !(m.type == MoveType.jump)))),
       indices.flatMap (fun row => indices.flatMap (fun col =>
          (self.getValidMoves row col).filter (fun m => m.type == MoveType.jump)))) :=
  scan_eq self indices indices

/-- The legal set when no continuation is pending: the scan of lines 219-239
collects the jumps and the steps of every square in row-major order. -/
theorem getAllValidMoves_scan (self : CheckersGame)
    (h : self.mustJump = false ∨ self.selectedPiece = none) :
    self.getAllValidMoves =
      if self.scanBoard.2.length > 0 then self.scanBoard.2 else self.scanBoard.1 := by
  unfold getAllValidMoves
  rcases h with h | h
  · rw [h]
  · rw [h]
    cases self.mustJump <;> rfl

/-- The legal set while a continuation is pending (lines 214-217). -/
theorem getAllValidMoves_continuation (self : CheckersGame) (p : Int × Int)
    (hm : self.mustJump = true) (hs : self.selectedPiece = some p) :
    self.getAllValidMoves =
      (self.getValidMoves p.1 p.2).filter (fun m => m.type == MoveType.jump) := by
  unfold getAllValidMoves
  rw [hm, hs]

theorem inRange_of_mem_getValidMoves (self : CheckersGame) (row col : Int) (m : Move)
    (h : m ∈ self.getValidMoves row col) : 0 ≤ row ∧ row < 8 ∧ 0 ≤ col ∧ col < 8 := by
  obtain ⟨piece, hp, _⟩ := (mem_getValidMoves self row col m).1 h
  exact inRange_of_getPiece_some self row col piece hp

theorem from_of_mem_getValidMoves (self : CheckersGame) (row col : Int) (m : Move)
    (h : m ∈ self.getValidMoves row col) : m.from_ = (row, col) := by
  obtain ⟨piece, _, _, rowDir, _, colDir, _, hm⟩ := (mem_getValidMoves self row col m).1 h
  rcases (mem_probeDirection self row col rowDir colDir m).1 hm with ⟨rfl, _⟩ | ⟨rfl, _⟩ <;> rfl

theorem mem_scanBoard_jumps (self : CheckersGame) (m : Move) :
    m ∈ self.scanBoard.2 ↔
      m.type = MoveType.jump ∧ ∃ row col, m ∈ self.getValidMoves row col := by
  rw [scanBoard_eq]
  simp only [List.mem_flatMap, List.mem_filter, mem_indices, beq_iff_eq]
  constructor
  · rintro ⟨row, _, col, _, hm, ht⟩
    exact ⟨ht, row, col, hm⟩
  · rintro ⟨ht, row, col, hm⟩
    have hr := inRange_of_mem_getValidMoves self row col m hm
    exact ⟨row, ⟨hr.1, hr.2.1⟩, col, ⟨hr.2.2.1, hr.2.2.2⟩, hm, ht⟩

theorem mem_scanBoard_steps (self : CheckersGame) (m : Move) :
    m ∈ self.scanBoard.1 ↔
      m.type = MoveType.move ∧ ∃ row col, m ∈ self.getValidMoves row col := by
  rw [scanBoard_eq]
  simp only [List.mem_flatMap, List.mem_filter, mem_indices, Bool.not_eq_true', beq_eq_false_iff_ne,
    ne_eq]
  constructor
  · rintro ⟨row, _, col, _, hm, ht⟩
    refine ⟨?_, row, col, hm⟩
    cases hty : m.type with
    | move => rfl
    | jump => exact absurd hty ht
  · rintro ⟨ht, row, col, hm⟩
    have hr := inRange_of_mem_getValidMoves self row col m hm
    refine ⟨row, ⟨hr.1, hr.2.1⟩, col, ⟨hr.2.2.1, hr.2.2.2⟩, hm, ?_⟩
    rw [ht]
    simp

/-- Every legal move is a move of the piece on its `from` square. -/
theorem mem_getValidMoves_of_mem_getAllValidMoves (self : CheckersGame) (m : Move)
    (h : m ∈ self.getAllValidMoves) : m ∈ self.getValidMoves m.from_.1 m.from_.2 := by
  by_cases hc : self.mustJump = false ∨ self.selectedPiece = none
  · rw [getAllValidMoves_scan self hc] at h
    have : ∃ row col, m ∈ self.getValidMoves row col := by
      split_ifs at h
      · exact ((mem_scanBoard_jumps self m).1 h).2
      · exact ((mem_scanBoard_steps self m).1 h).2
    obtain ⟨row, col, hm⟩ := this
    rw [from_of_mem_getValidMoves self row col m hm]
    exact hm
  · have hm : self.mustJump = true := by
      cases hmj : self.mustJump
      · exact absurd (Or.inl hmj) hc
      · rfl
    cases hs : self.selectedPiece with
    | none => exact absurd (Or.inr hs) hc
    | some p =>
      rw [getAllValidMoves_continuation self p hm hs] at h
      have h2 := (List.mem_filter.1 h).1
      rw [from_of_mem_getValidMoves self p.1 p.2 m h2]
      exact h2

theorem findMove_some (self : CheckersGame) (move : MoveRequest) (m : Move)
    (h : self.findMove move = some m) :
    m ∈ self.getAllValidMoves ∧ m.from_ = move.from_ ∧ m.to_ = move.to_ := by
  unfold findMove at h
  refine ⟨List.mem_of_find?_eq_some h, ?_⟩
  have hp := List.find?_some h
  simp only [Bool.and_eq_true, beq_iff_eq] at hp
  exact ⟨Prod.ext hp.1.1.1 hp.1.1.2, Prod.ext hp.1.2 hp.2⟩

theorem findMove_none (self : CheckersGame) (move : MoveRequest)
    (h : self.findMove move = none) (m : Move) (hm : m ∈ self.getAllValidMoves) :
    ¬ (m.from_ = move.from_ ∧ m.to_ = move.to_) := by
  unfold findMove at h
  have := List.find?_eq_none.1 h m hm
  rintro ⟨h1, h2⟩
  apply this
  simp [h1, h2]

/-- The boolean returned by `makeMove`. -/
theorem makeMove_fst (self : CheckersGame) (move : MoveRequest) :
    (self.makeMove move).1 = true ↔
      self.winner = none ∧
        ∃ m ∈ self.getAllValidMoves, m.from_ = move.from_ ∧ m.to_ = move.to_ := by
  unfold makeMove
  cases hw : self.winner with
  | some w => simp
  | none =>
    simp only [Option.isSome_none, Bool.false_eq_true, if_false, true_and]
    cases hp : self.getPiece move.from_.1 move.from_.2 with
    | none =>
      simp only [Bool.false_eq_true, false_iff, not_exists, not_and]
      intro m hm hf _
      have := mem_getValidMoves_of_mem_getAllValidMoves self m hm
      rw [hf, getValidMoves_of_none self _ _ hp] at this
      cases this
    | some piece =>
      by_cases hown : self.isOwnPiece (some piece) = true
      · simp only [hown, Bool.not_true, Bool.false_eq_true, if_false]
        cases hf : self.findMove move with
        | none =>
          simp only [Bool.false_eq_true, false_iff, not_exists, not_and]
          intro m hm h1 h2
          exact findMove_none self move hf m hm ⟨h1, h2⟩
        | some fullMove =>
          simp only [true_iff]
          exact ⟨fullMove, findMove_some self move fullMove hf⟩
      · simp only [Bool.not_eq_true] at hown
        simp only [hown, Bool.not_false, if_true, Bool.false_eq_true, false_iff, not_exists, not_and]
        intro m hm hf _
        have := mem_getValidMoves_of_mem_getAllValidMoves self m hm
        rw [hf, getValidMoves_of_not_own self _ _ piece hp hown] at this
        cases this

/-! ## Lemmas on `makeMove` -/

/-- A rejected request leaves the engine as it was. -/
theorem makeMove_of_false (self : CheckersGame) (move : MoveRequest)
    (h : (self.makeMove move).1 = false) : (self.makeMove move).2 = self := by
  unfold makeMove at h ⊢
  cases hw : self.winner with
  | some w => simp
  | none =>
    rw [hw] at h
    simp only [Option.isSome_none, Bool.false_eq_true, if_false] at h ⊢
    cases hp : self.getPiece move.from_.1 move.from_.2 with
    | none => rfl
    | some piece =>
      rw [hp] at h
      simp only [] at h ⊢
      by_cases hown : self.isOwnPiece (some piece) = true
      · simp only [hown, Bool.not_true, Bool.false_eq_true, if_false] at h ⊢
        cases hf : self.findMove move with
        | none => rfl
        | some fullMove => rw [hf] at h; cases h
      · simp only [Bool.not_eq_true] at hown
        simp [hown]

/-- An accepted request: the moved piece, the matched move, and the engine
after the call. -/
theorem makeMove_of_true (self : CheckersGame) (move : MoveRequest)
    (h : (self.makeMove move).1 = true) :
    ∃ piece fullMove, self.winner = none ∧
      self.getPiece move.from_.1 move.from_.2 = some piece ∧
      self.isOwnPiece (some piece) = true ∧
      self.findMove move = some fullMove ∧
      (self.makeMove move).2 = (self.executeMove move piece fullMove).finishMove move fullMove := by
  cases hw : self.winner with
  | some w => exfalso; unfold makeMove at h; simp [hw] at h
  | none =>
    cases hp : self.getPiece move.from_.1 move.from_.2 with
    | none => exfalso; unfold makeMove at h; simp [hw, hp] at h
    | some piece =>
      cases hown : self.isOwnPiece (some piece) with
      | false => exfalso; unfold makeMove at h; simp [hw, hp, hown] at h
      | true =>
        cases hf : self.findMove move with
        | none => exfalso; unfold makeMove at h; simp [hw, hp, hown, hf] at h
        | some fullMove =>
          refine ⟨piece, fullMove, rfl, rfl, hown, rfl, ?_⟩
          unfold makeMove
          simp [hw, hp, hown, hf]

theorem checkWinCondition_board (self : CheckersGame) :
    self.checkWinCondition.board = self.board ∧
      self.checkWinCondition.currentPlayer = self.currentPlayer ∧
      self.checkWinCondition.mustJump = self.mustJump ∧
      self.checkWinCondition.selectedPiece = self.selectedPiece := by
  unfold checkWinCondition
  simp only []
  split_ifs <;> exact ⟨rfl, rfl, rfl, rfl⟩

theorem canContinueJumping_iff (self : CheckersGame) (row col : Int) :
    self.canContinueJumping row col = true ↔
      ∃ j ∈ self.getValidMoves row col, j.type = MoveType.jump := by
  unfold canContinueJumping
  cases hp : self.getPiece row col with
  | none => simp [getValidMoves_of_none self row col hp]
  | some piece => simp

theorem setPiece_fields (self : CheckersGame) (row col : Int) (piece : Cell) :
    (self.setPiece row col piece).currentPlayer = self.currentPlayer ∧
      (self.setPiece row col piece).mustJump = self.mustJump ∧
      (self.setPiece row col piece).selectedPiece = self.selectedPiece ∧
      (self.setPiece row col piece).winner = self.winner :=
  ⟨rfl, rfl, rfl, rfl⟩

theorem capture_fields (caps : List (Int × Int)) (self : CheckersGame) :
    (caps.foldl (fun self cap => self.setPiece cap.1 cap.2 none) self).currentPlayer =
        self.currentPlayer ∧
      (caps.foldl (fun self cap => self.setPiece cap.1 cap.2 none) self).mustJump =
        self.mustJump ∧
      (caps.foldl (fun self cap => self.setPiece cap.1 cap.2 none) self).selectedPiece =
        self.selectedPiece ∧
      (caps.foldl (fun self cap => self.setPiece cap.1 cap.2 none) self).winner =
        self.winner := by
  induction caps generalizing self with
  | nil => exact ⟨rfl, rfl, rfl, rfl⟩
  | cons c rest ih =>
    simp only [List.foldl_cons]
    exact ih _

/-- The board update touches no field but the board. -/
theorem executeMove_fields (self : CheckersGame) (move : MoveRequest) (piece : Piece)
    (fullMove : Move) :
    (self.executeMove move piece fullMove).currentPlayer = self.currentPlayer ∧
      (self.executeMove move piece fullMove).mustJump = self.mustJump ∧
      (self.executeMove move piece fullMove).selectedPiece = self.selectedPiece ∧
      (self.executeMove move piece fullMove).winner = self.winner := by
  unfold executeMove
  simp only []
  split_ifs <;>
    simp only [(setPiece_fields _ _ _ _).1, (setPiece_fields _ _ _ _).2.1,
      (setPiece_fields _ _ _ _).2.2.1, (setPiece_fields _ _ _ _).2.2.2,
      (capture_fields _ _).1, (capture_fields _ _).2.1,
      (capture_fields _ _).2.2.1, (capture_fields _ _).2.2.2, and_self]

/-- The shape of a legal move: one or two diagonal steps from an own piece to
an empty in-range square, a jump passing over an opponent piece. -/
theorem legal_move_shape (self : CheckersGame) (m : Move) (h : m ∈ self.getAllValidMoves) :
    ∃ piece rowDir colDir,
      self.getPiece m.from_.1 m.from_.2 = some piece ∧
      self.isOwnPiece (some piece) = true ∧
      rowDir ∈ directions piece ∧ (colDir = -1 ∨ colDir = 1) ∧
      (0 ≤ m.to_.1 ∧ m.to_.1 < 8 ∧ 0 ≤ m.to_.2 ∧ m.to_.2 < 8) ∧
      self.getPiece m.to_.1 m.to_.2 = none ∧
      ((m.type = MoveType.move ∧ m.to_ = (m.from_.1 + rowDir, m.from_.2 + colDir) ∧
          m.captures = []) ∨
       (m.type = MoveType.jump ∧ m.to_ = (m.from_.1 + rowDir * 2, m.from_.2 + colDir * 2) ∧
          m.captures = [(m.from_.1 + rowDir, m.from_.2 + colDir)] ∧
          self.isOpponentPiece (self.getPiece (m.from_.1 + rowDir) (m.from_.2 + colDir)) = true)) := by
  have hv := mem_getValidMoves_of_mem_getAllValidMoves self m h
  obtain ⟨piece, hp, hown, rowDir, hrd, colDir, hcd, hm⟩ := (mem_getValidMoves self _ _ m).1 hv
  refine ⟨piece, rowDir, colDir, hp, hown, hrd, hcd, ?_⟩
  rcases (mem_probeDirection self _ _ rowDir colDir m).1 hm with ⟨he, hr, hn⟩ | ⟨he, hr, ho, hn⟩
  · have ht : m.to_ = (m.from_.1 + rowDir, m.from_.2 + colDir) := by rw [he]
    have hty : m.type = MoveType.move := by rw [he]
    have hc : m.captures = [] := by rw [he]
    rw [ht]
    exact ⟨hr, hn, Or.inl ⟨hty, rfl, hc⟩⟩
  · have ht : m.to_ = (m.from_.1 + rowDir * 2, m.from_.2 + colDir * 2) := by rw [he]
    have hty : m.type = MoveType.jump := by rw [he]
    have hc : m.captures = [(m.from_.1 + rowDir, m.from_.2 + colDir)] := by rw [he]
    rw [ht]
    exact ⟨hr, hn, Or.inr ⟨hty, rfl, hc, ho⟩⟩

/-! ## Lemmas on the board update and the piece count -/

theorem getPiece_capture (caps : List (Int × Int)) (self : CheckersGame) (r c : Int) :
    (caps.foldl (fun self cap => self.setPiece cap.1 cap.2 none) self).getPiece r c =
      if (r, c) ∈ caps then none else self.getPiece r c := by
  induction caps generalizing self with
  | nil => simp
  | cons cap rest ih =>
    simp only [List.foldl_cons, List.mem_cons]
    rw [ih]
    by_cases h1 : (r, c) ∈ rest
    · rw [if_pos h1, if_pos (Or.inr h1)]
    · rw [if_neg h1]
      by_cases h2 : (r, c) = cap
      · rw [if_pos (Or.inl h2)]
        have hr : r = cap.1 := by rw [← h2]
        have hc : c = cap.2 := by rw [← h2]
        by_cases hin : 0 ≤ r ∧ r < 8 ∧ 0 ≤ c ∧ c < 8
        · rw [getPiece_setPiece _ _ _ _ _ _ hin, if_pos ⟨hr, hc⟩]
        · exact getPiece_outOfRange _ _ _ hin
      · rw [if_neg (fun h => h.elim h2 h1)]
        apply getPiece_setPiece_ne
        rintro ⟨hr, hc⟩
        exact h2 (Prod.ext hr hc)

theorem getPiece_setPiece_eq (self : CheckersGame) (row col : Int) (piece : Cell) (r c : Int) :
    (self.setPiece row col piece).getPiece r c =
      if (r, c) = (row, col) ∧ (0 ≤ r ∧ r < 8 ∧ 0 ≤ c ∧ c < 8) then piece
      else self.getPiece r c := by
  by_cases hin : 0 ≤ r ∧ r < 8 ∧ 0 ≤ c ∧ c < 8
  · rw [getPiece_setPiece _ _ _ _ _ _ hin]
    simp only [Prod.mk.injEq, hin, and_self, and_true]
  · rw [getPiece_outOfRange _ _ _ hin, getPiece_outOfRange _ _ _ hin]
    simp [hin]

/-- The board after the update of an accepted move, cell by cell. -/
theorem getPiece_executeMove (self : CheckersGame) (move : MoveRequest) (piece : Piece)
    (fullMove : Move) (r c : Int)
    (hto : 0 ≤ move.to_.1 ∧ move.to_.1 < 8 ∧ 0 ≤ move.to_.2 ∧ move.to_.2 < 8)
    (hne : move.from_ ≠ move.to_)
    (hcap : fullMove.type = MoveType.jump → move.to_ ∉ fullMove.captures) :
    (self.executeMove move piece fullMove).getPiece r c =
      if (r, c) = move.to_ then some (promoted piece move.to_.1)
      else if (r, c) = move.from_ then none
      else if fullMove.type = MoveType.jump ∧ (r, c) ∈ fullMove.captures then none
      else self.getPiece r c := by
  have pre : ∀ r c : Int,
      (if fullMove.type == MoveType.jump then
          fullMove.captures.foldl (fun self cap => self.setPiece cap.1 cap.2 none)
            ((self.setPiece move.to_.1 move.to_.2 (some piece)).setPiece
              move.from_.1 move.from_.2 none)
        else (self.setPiece move.to_.1 move.to_.2 (some piece)).setPiece
              move.from_.1 move.from_.2 none).getPiece r c =
      if (r, c) = move.to_ then some piece
      else if (r, c) = move.from_ then none
      else if fullMove.type = MoveType.jump ∧ (r, c) ∈ fullMove.captures then none
      else self.getPiece r c := by
    intro r c
    have base : ((self.setPiece move.to_.1 move.to_.2 (some piece)).setPiece
          move.from_.1 move.from_.2 none).getPiece r c =
        if (r, c) = move.to_ then some piece
        else if (r, c) = move.from_ then none
        else self.getPiece r c := by
      rw [getPiece_setPiece_eq, getPiece_setPiece_eq]
      by_cases h1 : (r, c) = move.to_
      · have hr : r = move.to_.1 := by rw [← h1]
        have hc : c = move.to_.2 := by rw [← h1]
        have h2 : ¬ ((r, c) = (move.from_.1, move.from_.2)) := by
          intro h; apply hne; rw [← h1, h]
        have h3 : (r, c) = (move.to_.1, move.to_.2) := h1
        have hin : 0 ≤ r ∧ r < 8 ∧ 0 ≤ c ∧ c < 8 := by rw [hr, hc]; exact hto
        rw [if_neg (fun h => h2 h.1), if_pos ⟨h3, hin⟩, if_pos h1]
      · have h3 : ¬ ((r, c) = (move.to_.1, move.to_.2)) := h1
        rw [if_neg h1]
        by_cases h2 : (r, c) = move.from_
        · have h4 : (r, c) = (move.from_.1, move.from_.2) := h2
          rw [if_pos h2]
          by_cases hin : 0 ≤ r ∧ r < 8 ∧ 0 ≤ c ∧ c < 8
          · rw [if_pos ⟨h4, hin⟩]
          · rw [if_neg (fun h => hin h.2), if_neg (fun h => hin h.2)]
            exact getPiece_outOfRange _ _ _ hin
        · have h4 : ¬ ((r, c) = (move.from_.1, move.from_.2)) := h2
          rw [if_neg h2, if_neg (fun h => h4 h.1), if_neg (fun h => h3 h.1)]
    by_cases hj : fullMove.type = MoveType.jump
    · simp only [hj, beq_self_eq_true, if_true, true_and]
      rw [getPiece_capture, base]
      by_cases h1 : (r, c) = move.to_
      · rw [if_pos h1, if_pos h1, if_neg (by rw [h1]; exact hcap hj)]
      · rw [if_neg h1, if_neg h1]
        by_cases h2 : (r, c) = move.from_
        · rw [if_pos h2, if_pos h2]; simp
        · rw [if_neg h2, if_neg h2]
    · have hj2 : (fullMove.type == MoveType.jump) = false := by simpa using hj
      simp only [hj2, hj, Bool.false_eq_true, if_false, false_and]
      exact base
  unfold executeMove
  simp only []
  generalize hg : (if fullMove.type == MoveType.jump then
          fullMove.captures.foldl (fun self cap => self.setPiece cap.1 cap.2 none)
            ((self.setPiece move.to_.1 move.to_.2 (some piece)).setPiece
              move.from_.1 move.from_.2 none)
        else (self.setPiece move.to_.1 move.to_.2 (some piece)).setPiece
              move.from_.1 move.from_.2 none) = g
  rw [hg] at pre
  have hgto : g.getPiece move.to_.1 move.to_.2 = some piece := by
    rw [pre, if_pos rfl]
  have h3 : ((r, c) = move.to_) ↔ (r = move.to_.1 ∧ c = move.to_.2) :=
    ⟨fun h => by rw [← h]; exact ⟨rfl, rfl⟩, fun h => Prod.ext h.1 h.2⟩
  unfold promoted
  by_cases h1 : (r, c) = move.to_
  · obtain ⟨hr, hc⟩ := h3.1 h1
    rw [if_pos h1, hr, hc]
    split_ifs
    · exact getPiece_setPiece_self _ _ _ _ hto
    · exact getPiece_setPiece_self _ _ _ _ hto
    · exact hgto
  · have hpre := pre r c
    rw [if_neg h1] at hpre
    rw [if_neg h1, ← hpre]
    split_ifs
    · exact getPiece_setPiece_ne _ _ _ _ _ _ (fun h => h1 (h3.2 h))
    · exact getPiece_setPiece_ne _ _ _ _ _ _ (fun h => h1 (h3.2 h))
    · rfl

/-- What an accepted request guarantees about its squares. -/
theorem legal_request (self : CheckersGame) (move : MoveRequest) (fullMove : Move)
    (h : self.findMove move = some fullMove) :
    (0 ≤ move.to_.1 ∧ move.to_.1 < 8 ∧ 0 ≤ move.to_.2 ∧ move.to_.2 < 8) ∧
      move.from_ ≠ move.to_ ∧
      (fullMove.type = MoveType.jump → move.to_ ∉ fullMove.captures) := by
  obtain ⟨hm, hf, ht⟩ := findMove_some self move fullMove h
  obtain ⟨piece, rowDir, colDir, _, _, hrd, hcd, hin, _, hshape⟩ :=
    legal_move_shape self fullMove hm
  have hrd2 := directions_abs piece rowDir hrd
  rw [ht] at hin
  refine ⟨hin, ?_, ?_⟩
  · intro heq
    rw [← hf, ← ht] at heq
    rcases hshape with ⟨_, hto, _⟩ | ⟨_, hto, _⟩
    · rw [hto] at heq
      have := congrArg Prod.fst heq
      simp only at this
      omega
    · rw [hto] at heq
      have := congrArg Prod.fst heq
      simp only at this
      omega
  · intro hj hmem
    rcases hshape with ⟨hty, _, _⟩ | ⟨_, hto, hc, _⟩
    · rw [hty] at hj; cases hj
    · rw [hc, ← ht, hto] at hmem
      simp only [List.mem_singleton, Prod.mk.injEq] at hmem
      omega

theorem countSquare_mono (self : CheckersGame) (r c : Int) (acc : Nat × Nat) :
    acc.1 ≤ (self.countSquare r c acc).1 ∧ acc.2 ≤ (self.countSquare r c acc).2 := by
  unfold countSquare
  cases self.getPiece r c with
  | none => exact ⟨le_refl _, le_refl _⟩
  | some piece =>
    simp only []
    split_ifs <;> simp

theorem countSquare_red (self : CheckersGame) (r c : Int) (piece : Piece)
    (hp : self.getPiece r c = some piece) (hr : piece.toLowerCase = Piece.r)
    (acc : Nat × Nat) : acc.1 < (self.countSquare r c acc).1 := by
  unfold countSquare
  rw [hp]
  simp [hr]

theorem countSquare_black (self : CheckersGame) (r c : Int) (piece : Piece)
    (hp : self.getPiece r c = some piece) (hb : piece.toLowerCase = Piece.b)
    (acc : Nat × Nat) : acc.2 < (self.countSquare r c acc).2 := by
  unfold countSquare
  rw [hp]
  simp [hb]

theorem foldl_count_mono {β : Type} (f : β → Nat × Nat → Nat × Nat)
    (hf : ∀ d acc, acc.1 ≤ (f d acc).1 ∧ acc.2 ≤ (f d acc).2) (l : List β)
    (init : Nat × Nat) :
    init.1 ≤ (l.foldl (fun acc d => f d acc) init).1 ∧
      init.2 ≤ (l.foldl (fun acc d => f d acc) init).2 := by
  induction l generalizing init with
  | nil => exact ⟨le_refl _, le_refl _⟩
  | cons d rest ih =>
    simp only [List.foldl_cons]
    exact ⟨le_trans (hf d init).1 (ih _).1, le_trans (hf d init).2 (ih _).2⟩

theorem foldl_count_fst {β : Type} (f : β → Nat × Nat → Nat × Nat)
    (hf : ∀ d acc, acc.1 ≤ (f d acc).1 ∧ acc.2 ≤ (f d acc).2) (l : List β) (x : β)
    (hx : x ∈ l) (hpos : ∀ acc, acc.1 < (f x acc).1) (init : Nat × Nat) :
    init.1 < (l.foldl (fun acc d => f d acc) init).1 := by
  induction l generalizing init with
  | nil => cases hx
  | cons d rest ih =>
    simp only [List.foldl_cons]
    rcases List.mem_cons.1 hx with rfl | hmem
    · exact lt_of_lt_of_le (hpos init) (foldl_count_mono f hf rest _).1
    · exact lt_of_le_of_lt (hf d init).1 (ih hmem _)

theorem foldl_count_snd {β : Type} (f : β → Nat × Nat → Nat × Nat)
    (hf : ∀ d acc, acc.1 ≤ (f d acc).1 ∧ acc.2 ≤ (f d acc).2) (l : List β) (x : β)
    (hx : x ∈ l) (hpos : ∀ acc, acc.2 < (f x acc).2) (init : Nat × Nat) :
    init.2 < (l.foldl (fun acc d => f d acc) init).2 := by
  induction l generalizing init with
  | nil => cases hx
  | cons d rest ih =>
    simp only [List.foldl_cons]
    rcases List.mem_cons.1 hx with rfl | hmem
    · exact lt_of_lt_of_le (hpos init) (foldl_count_mono f hf rest _).2
    · exact lt_of_le_of_lt (hf d init).2 (ih hmem _)

/-- A red piece on the board makes the red count positive. -/
theorem countPieces_red_pos (self : CheckersGame) (r c : Int) (piece : Piece)
    (hp : self.getPiece r c = some piece) (hr : piece.toLowerCase = Piece.r) :
    0 < self.countPieces.1 := by
  have hin := inRange_of_getPiece_some self r c piece hp
  unfold countPieces
  have hrow : ∀ d acc, acc.1 ≤ (indices.foldl (fun acc c => self.countSquare d c acc) acc).1 ∧
      acc.2 ≤ (indices.foldl (fun acc c => self.countSquare d c acc) acc).2 := fun d acc =>
    foldl_count_mono (fun c acc => self.countSquare d c acc)
      (fun c acc => countSquare_mono self d c acc) indices acc
  exact foldl_count_fst
    (fun r acc => indices.foldl (fun acc c => self.countSquare r c acc) acc) hrow indices r
    ((mem_indices r).2 ⟨hin.1, hin.2.1⟩)
    (fun acc => foldl_count_fst (fun c acc => self.countSquare r c acc)
      (fun c acc => countSquare_mono self r c acc) indices c
      ((mem_indices c).2 ⟨hin.2.2.1, hin.2.2.2⟩)
      (fun acc => countSquare_red self r c piece hp hr acc) acc) (0, 0)

/-- A black piece on the board makes the black count positive. -/
theorem countPieces_black_pos (self : CheckersGame) (r c : Int) (piece : Piece)
    (hp : self.getPiece r c = some piece) (hb : piece.toLowerCase = Piece.b) :
    0 < self.countPieces.2 := by
  have hin := inRange_of_getPiece_some self r c piece hp
  unfold countPieces
  have hrow : ∀ d acc, acc.1 ≤ (indices.foldl (fun acc c => self.countSquare d c acc) acc).1 ∧
      acc.2 ≤ (indices.foldl (fun acc c => self.countSquare d c acc) acc).2 := fun d acc =>
    foldl_count_mono (fun c acc => self.countSquare d c acc)
      (fun c acc => countSquare_mono self d c acc) indices acc
  exact foldl_count_snd
    (fun r acc => indices.foldl (fun acc c => self.countSquare r c acc) acc) hrow indices r
    ((mem_indices r).2 ⟨hin.1, hin.2.1⟩)
    (fun acc => foldl_count_snd (fun c acc => self.countSquare r c acc)
      (fun c acc => countSquare_mono self r c acc) indices c
      ((mem_indices c).2 ⟨hin.2.2.1, hin.2.2.2⟩)
      (fun acc => countSquare_black self r c piece hp hb acc) acc) (0, 0)

/-- The winner that `checkWinCondition` leaves when none was set. -/
theorem checkWinCondition_winner (self : CheckersGame) (hw : self.winner = none) :
    self.checkWinCondition.winner =
      if self.countPieces.1 = 0 then some Player.black
      else if self.countPieces.2 = 0 then some Player.red
      else if self.getAllValidMoves.length = 0 then some (other self.currentPlayer)
      else none := by
  unfold checkWinCondition
  rw [hw]
  simp only [Option.isSome_none, Bool.false_eq_true, if_false]
  rcases hc : self.countPieces with ⟨red, black⟩
  simp only []
  split_ifs <;> first | rfl | exact hw

theorem finishMove_continue (self : CheckersGame) (move : MoveRequest) (fullMove : Move)
    (hj : fullMove.type = MoveType.jump)
    (hc : self.canContinueJumping move.to_.1 move.to_.2 = true) :
    self.finishMove move fullMove =
      { self with mustJump := true, selectedPiece := some (move.to_.1, move.to_.2) } := by
  unfold finishMove
  simp [hj, hc]

theorem finishMove_switch (self : CheckersGame) (move : MoveRequest) (fullMove : Move)
    (h : ¬ (fullMove.type = MoveType.jump ∧
      self.canContinueJumping move.to_.1 move.to_.2 = true)) :
    self.finishMove move fullMove =
      checkWinCondition
        { self with
          currentPlayer := other self.currentPlayer
          mustJump := false
          selectedPiece := none } := by
  unfold finishMove
  simp only []
  rw [if_neg]
  simpa using h

theorem other_ne (p : Player) : other p ≠ p := by
  cases p <;> simp [other]

theorem getAllValidMoves_winner (self : CheckersGame) (w : Option Player) :
    ({ self with winner := w } : CheckersGame).getAllValidMoves = self.getAllValidMoves := rfl

theorem countPieces_of_board (a b : CheckersGame) (h : a.board = b.board) :
    a.countPieces = b.countPieces := by
  have hg : ∀ r c, a.getPiece r c = b.getPiece r c := by
    intro r c
    unfold getPiece boardAt
    rw [h]
  unfold countPieces countSquare
  simp only [hg]

theorem getPiece_of_board (a b : CheckersGame) (h : a.board = b.board) (r c : Int) :
    a.getPiece r c = b.getPiece r c := by
  unfold getPiece boardAt
  rw [h]

/-- What `checkWinCondition` returns is its argument with some winner. -/
theorem checkWinCondition_eq (self : CheckersGame) :
    self.checkWinCondition = { self with winner := self.checkWinCondition.winner } := by
  unfold checkWinCondition
  simp only []
  split_ifs <;> rfl

theorem finishMove_board (self : CheckersGame) (move : MoveRequest) (fullMove : Move) :
    (self.finishMove move fullMove).board = self.board := by
  unfold finishMove
  simp only []
  split_ifs
  · rfl
  · exact (checkWinCondition_board _).1

/-- No square of the starting position offers a jump. -/
theorem no_jump_at_start :
    ¬ ∃ row col j, j ∈ CheckersGame.new.getValidMoves row col ∧ j.type = MoveType.jump := by
  rintro ⟨row, col, j, hj, ht⟩
  have hin := inRange_of_mem_getValidMoves _ row col j hj
  have key : ∀ row ∈ indices, ∀ col ∈ indices,
      ∀ j ∈ CheckersGame.new.getValidMoves row col, j.type ≠ MoveType.jump := by decide
  exact key row ((mem_indices row).2 ⟨hin.1, hin.2.1⟩) col
    ((mem_indices col).2 ⟨hin.2.2.1, hin.2.2.2⟩) j hj ht

/-- The destination square after an accepted request holds the moved piece,
crowned when it reached its far row. -/
theorem getPiece_to_after_makeMove (self : CheckersGame) (move : MoveRequest)
    (h : (self.makeMove move).1 = true) :
    ∃ piece, self.getPiece move.from_.1 move.from_.2 = some piece ∧
      self.isOwnPiece (some piece) = true ∧
      (self.makeMove move).2.getPiece move.to_.1 move.to_.2 =
        some (promoted piece move.to_.1) := by
  obtain ⟨piece, m, _, hp, hown, hf, hafter⟩ := makeMove_of_true self move h
  obtain ⟨hto, hne, hcap⟩ := legal_request self move m hf
  refine ⟨piece, hp, hown, ?_⟩
  rw [hafter, getPiece_of_board _ _ (finishMove_board _ move m),
    getPiece_executeMove self move piece m _ _ hto hne hcap, if_pos rfl]

/-- With no opponent piece on the board no square offers a jump. -/
theorem no_jump_of_no_opponent (self : CheckersGame)
    (hz : (if self.currentPlayer = Player.red then self.countPieces.2
      else self.countPieces.1) = 0) (row col : Int) (j : Move)
    (hj : j ∈ self.getValidMoves row col) : j.type ≠ MoveType.jump := by
  intro ht
  obtain ⟨piece, _, _, rowDir, _, colDir, _, hm⟩ := (mem_getValidMoves self row col j).1 hj
  rcases (mem_probeDirection self row col rowDir colDir j).1 hm with ⟨he, _⟩ | ⟨_, _, ho, _⟩
  · rw [he] at ht; cases ht
  · cases hq : self.getPiece (row + rowDir) (col + colDir) with
    | none => rw [hq] at ho; simp [isOpponentPiece] at ho
    | some q =>
      rw [hq] at ho
      unfold isOpponentPiece at ho
      simp only [Bool.or_eq_true, Bool.and_eq_true, beq_iff_eq] at ho
      rcases ho with ⟨hc, hl⟩ | ⟨hc, hl⟩
      · rw [if_pos hc] at hz
        have := countPieces_black_pos self _ _ q hq hl
        omega
      · rw [if_neg (by rw [hc]; exact fun h => by cases h)] at hz
        have := countPieces_red_pos self _ _ q hq hl
        omega

theorem promoted_toLowerCase (piece : Piece) (toRow : Int) :
    (promoted piece toRow).toLowerCase = piece.toLowerCase := by
  unfold promoted
  cases piece <;> split_ifs <;> simp_all [Piece.toLowerCase]

end CheckersGame

/-! ## Lemmas on snapshots -/

namespace JSValue

theorem copyRows_of_arrays (rows : List JSValue)
    (h : ∀ row ∈ rows, ∃ items, row = arr items) : copyRows rows = .ok rows := by
  induction rows with
  | nil => rfl
  | cons row rest ih =>
    obtain ⟨items, rfl⟩ := h _ (List.mem_cons_self _ _)
    have hrest := ih (fun r hr => h r (List.mem_cons_of_mem _ hr))
    simp only [copyRows, spread, hrest]

/-- The copy succeeds exactly when every row is an array or a string. -/
theorem copyRows_ok_iff (rows : List JSValue) :
    (∃ copied, copyRows rows = .ok copied) ↔
      ∀ row ∈ rows, (∃ items, row = arr items) ∨ (∃ s, row = str s) := by
  induction rows with
  | nil => simp [copyRows]
  | cons row rest ih =>
    constructor
    · rintro ⟨copied, hc⟩
      unfold copyRows at hc
      cases hs : spread row with
      | error e => rw [hs] at hc; cases hc
      | ok items =>
        rw [hs] at hc
        simp only [] at hc
        cases hr : copyRows rest with
        | error e => rw [hr] at hc; cases hc
        | ok rs =>
          have hall := ih.1 ⟨rs, hr⟩
          intro r hmem
          rcases List.mem_cons.1 hmem with rfl | hmem
          · cases r <;> simp_all [spread]
          · exact hall r hmem
    · intro hall
      obtain ⟨rs, hr⟩ := ih.2 (fun r hr => hall r (List.mem_cons_of_mem _ hr))
      rcases hall row (List.mem_cons_self _ _) with ⟨items, rfl⟩ | ⟨s, rfl⟩
      · exact ⟨arr items :: rs, by simp only [copyRows, spread, hr]⟩
      · exact ⟨arr (s.toList.map (fun ch => str ch.toString)) :: rs, by
          simp only [copyRows, spread, hr]⟩

end JSValue

namespace EngineObject

/-- How `loadBoardState` completes on an object snapshot whose board copies. -/
theorem loadBoardState_ok (self : EngineObject) (props : List (String × JSValue))
    (rows copied : List JSValue)
    (hb : JSValue.lookup "board" props = JSValue.arr rows)
    (hc : JSValue.copyRows rows = .ok copied) :
    self.loadBoardState (JSValue.obj props) =
      (.ok (),
       { board := JSValue.arr copied
         currentPlayer := JSValue.lookup "currentPlayer" props
         mustJump := (JSValue.lookup "mustJump" props).orElse (JSValue.bool false)
         selectedPiece := (JSValue.lookup "selectedPiece" props).orElse JSValue.null
         winner := (JSValue.lookup "winner" props).orElse JSValue.null }) := by
  unfold loadBoardState
  simp only [JSValue.getProp, hb, JSValue.mapSpread, hc]

/-- A `loadBoardState` that throws has assigned nothing. -/
theorem loadBoardState_error (self : EngineObject) (state : JSValue) (e : JSError)
    (h : (self.loadBoardState state).1 = .error e) :
    (self.loadBoardState state).2 = self := by
  unfold loadBoardState at h ⊢
  cases state with
  | undefined => rfl
  | null => rfl
  | bool b => rfl
  | num n => rfl
  | str s => rfl
  | arr items => rfl
  | obj props =>
    simp only [JSValue.getProp] at h ⊢
    cases hb : JSValue.mapSpread (JSValue.lookup "board" props) with
    | error e2 => rfl
    | ok board =>
      rw [hb] at h
      cases h

/-- The snapshots on which `loadBoardState` completes normally. -/
theorem loadBoardState_ok_iff (self : EngineObject) (state : JSValue) :
    (self.loadBoardState state).1 = .ok () ↔
      ∃ props rows, state = JSValue.obj props ∧
        JSValue.lookup "board" props = JSValue.arr rows ∧
        ∀ row ∈ rows, (∃ items, row = JSValue.arr items) ∨ (∃ s, row = JSValue.str s) := by
  constructor
  · intro h
    unfold loadBoardState at h
    cases state with
    | undefined => cases h
    | null => cases h
    | bool b => cases h
    | num n => cases h
    | str s => cases h
    | arr items => cases h
    | obj props =>
      simp only [JSValue.getProp] at h
      cases hl : JSValue.lookup "board" props with
      | arr rows =>
        refine ⟨props, rows, rfl, hl, ?_⟩
        rw [hl] at h
        simp only [JSValue.mapSpread] at h
        cases hc : JSValue.copyRows rows with
        | error e => rw [hc] at h; cases h
        | ok copied => exact (JSValue.copyRows_ok_iff rows).1 ⟨copied, hc⟩
      | undefined => rw [hl] at h; cases h
      | null => rw [hl] at h; cases h
      | bool b => rw [hl] at h; cases h
      | num n => rw [hl] at h; cases h
      | str s => rw [hl] at h; cases h
      | obj ps => rw [hl] at h; cases h
  · rintro ⟨props, rows, rfl, hb, hall⟩
    obtain ⟨copied, hc⟩ := (JSValue.copyRows_ok_iff rows).2 hall
    rw [loadBoardState_ok self props rows copied hb hc]

end EngineObject

namespace CheckersGame

theorem code_injective (p q : Piece) (h : p.code = q.code) : p = q := by
  cases p <;> cases q <;> first | rfl | (exact absurd h (by decide))

theorem name_injective (p q : Player) (h : p.name = q.name) : p = q := by
  cases p <;> cases q <;> first | rfl | (exact absurd h (by decide))

theorem cellToJS_injective (a b : Cell) (h : cellToJS a = cellToJS b) : a = b := by
  cases a with
  | none =>
    cases b with
    | none => rfl
    | some q => simp [cellToJS] at h
  | some p =>
    cases b with
    | none => simp [cellToJS] at h
    | some q =>
      simp only [cellToJS, JSValue.str.injEq] at h
      rw [code_injective p q h]

/-- Two typed engines with the same engine object are equal. -/
theorem toJS_injective (a b : CheckersGame) (h : a.toJS = b.toJS) : a = b := by
  have hboard : a.board = b.board := by
    have h1 := congrArg EngineObject.board h
    simp only [toJS, JSValue.arr.injEq] at h1
    have h2 := List.ofFn_injective h1
    funext i j
    have h3 := congrFun h2 i
    simp only [JSValue.arr.injEq] at h3
    have h4 := congrFun (List.ofFn_injective h3) j
    exact cellToJS_injective _ _ h4
  have hplayer : a.currentPlayer = b.currentPlayer := by
    have h1 := congrArg EngineObject.currentPlayer h
    simp only [toJS, JSValue.str.injEq] at h1
    exact name_injective _ _ h1
  have hsel : a.selectedPiece = b.selectedPiece := by
    have h1 := congrArg EngineObject.selectedPiece h
    simp only [toJS] at h1
    cases ha : a.selectedPiece with
    | none =>
      cases hb : b.selectedPiece with
      | none => rfl
      | some q => rw [ha, hb] at h1; cases h1
    | some p =>
      cases hb : b.selectedPiece with
      | none => rw [ha, hb] at h1; cases h1
      | some q =>
        rw [ha, hb] at h1
        obtain ⟨p1, p2⟩ := p
        obtain ⟨q1, q2⟩ := q
        simp only [JSValue.arr.injEq, List.cons.injEq, JSValue.num.injEq, and_true] at h1
        rw [h1.1, h1.2]
  have hmust : a.mustJump = b.mustJump := by
    have h1 := congrArg EngineObject.mustJump h
    simpa [toJS] using h1
  have hwin : a.winner = b.winner := by
    have h1 := congrArg EngineObject.winner h
    simp only [toJS] at h1
    cases ha : a.winner with
    | none =>
      cases hb : b.winner with
      | none => rfl
      | some q => rw [ha, hb] at h1; cases h1
    | some p =>
      cases hb : b.winner with
      | none => rw [ha, hb] at h1; cases h1
      | some q =>
        rw [ha, hb] at h1
        simp only [JSValue.str.injEq] at h1
        rw [name_injective p q h1]
  cases a
  cases b
  simp only at hboard hplayer hsel hmust hwin
  subst hboard hplayer hsel hmust hwin
  rfl

/-- The rows of a typed engine's board are arrays, so copying them is the
identity. -/
theorem copyRows_toJS (self : CheckersGame) :
    JSValue.copyRows (List.ofFn (fun i : Fin 8 =>
        JSValue.arr (List.ofFn (fun j : Fin 8 => cellToJS (self.board i j))))) =
      .ok (List.ofFn (fun i : Fin 8 =>
        JSValue.arr (List.ofFn (fun j : Fin 8 => cellToJS (self.board i j))))) := by
  apply JSValue.copyRows_of_arrays
  intro row hrow
  obtain ⟨i, rfl⟩ := (List.mem_ofFn _ _).1 hrow
  exact ⟨_, rfl⟩

/-- The snapshot `getBoardState()` returns on a typed engine. -/
theorem getBoardState_toJS (self : CheckersGame) :
    self.toJS.getBoardState =
      .ok (JSValue.obj
        [("board", self.toJS.board),
         ("currentPlayer", self.toJS.currentPlayer),
         ("mustJump", self.toJS.mustJump),
         ("selectedPiece", self.toJS.selectedPiece),
         ("winner", self.toJS.winner)]) := by
  unfold EngineObject.getBoardState
  have : self.toJS.board.mapSpread = .ok self.toJS.board := by
    simp only [toJS, JSValue.mapSpread, copyRows_toJS]
  rw [this]

/-- Loading the snapshot of a typed engine gives back its engine object. -/
theorem loadBoardState_snapshot (self : CheckersGame) (engine : EngineObject) :
    engine.loadBoardState
        (JSValue.obj
          [("board", self.toJS.board),
           ("currentPlayer", self.toJS.currentPlayer),
           ("mustJump", self.toJS.mustJump),
           ("selectedPiece", self.toJS.selectedPiece),
           ("winner", self.toJS.winner)]) =
      (.ok (), self.toJS) := by
  rw [EngineObject.loadBoardState_ok engine _
    (List.ofFn (fun i : Fin 8 =>
      JSValue.arr (List.ofFn (fun j : Fin 8 => cellToJS (self.board i j))))) _
    (by simp [JSValue.lookup, toJS]) (copyRows_toJS self)]
  have hm : (JSValue.bool self.mustJump).orElse (JSValue.bool false) =
      JSValue.bool self.mustJump := by
    cases self.mustJump <;> rfl
  have hs : self.toJS.selectedPiece.orElse JSValue.null = self.toJS.selectedPiece := by
    simp only [toJS]
    cases self.selectedPiece <;> rfl
  have hw : self.toJS.winner.orElse JSValue.null = self.toJS.winner := by
    simp only [toJS]
    cases self.winner with
    | none => rfl
    | some p => cases p <;> rfl
  have e1 : JSValue.lookup "currentPlayer"
      [("board", self.toJS.board), ("currentPlayer", self.toJS.currentPlayer),
       ("mustJump", self.toJS.mustJump), ("selectedPiece", self.toJS.selectedPiece),
       ("winner", self.toJS.winner)] = self.toJS.currentPlayer := by
    simp [JSValue.lookup]
  have e2 : JSValue.lookup "mustJump"
      [("board", self.toJS.board), ("currentPlayer", self.toJS.currentPlayer),
       ("mustJump", self.toJS.mustJump), ("selectedPiece", self.toJS.selectedPiece),
       ("winner", self.toJS.winner)] = self.toJS.mustJump := by
    simp [JSValue.lookup]
  have e3 : JSValue.lookup "selectedPiece"
      [("board", self.toJS.board), ("currentPlayer", self.toJS.currentPlayer),
       ("mustJump", self.toJS.mustJump), ("selectedPiece", self.toJS.selectedPiece),
       ("winner", self.toJS.winner)] = self.toJS.selectedPiece := by
    simp [JSValue.lookup]
  have e4 : JSValue.lookup "winner"
      [("board", self.toJS.board), ("currentPlayer", self.toJS.currentPlayer),
       ("mustJump", self.toJS.mustJump), ("selectedPiece", self.toJS.selectedPiece),
       ("winner", self.toJS.winner)] = self.toJS.winner := by
    simp [JSValue.lookup]
  rw [e1, e2, e3, e4, hs, hw]
  have hm2 : self.toJS.mustJump.orElse (JSValue.bool false) = self.toJS.mustJump := hm
  rw [hm2]
  rfl

/-- Playing requests from a reachable state stays among the reachable states. -/
theorem reachable_play (self : CheckersGame) (h : Reachable self) (moves : List MoveRequest) :
    Reachable (self.play moves) := by
  induction moves generalizing self with
  | nil => exact h
  | cons move rest ih =>
    exact ih _ (Reachable.step self move h)

/-! ## Lemmas on the exact piece count -/

theorem countSquare_eq (self : CheckersGame) (r c : Int) (acc : Nat × Nat) :
    self.countSquare r c acc =
      (acc.1 + redIn (self.getPiece r c), acc.2 + blackIn (self.getPiece r c)) := by
  unfold countSquare redIn blackIn
  cases self.getPiece r c with
  | none => rfl
  | some piece =>
    simp only []
    split_ifs <;> rfl

/-- A loop that adds to a pair of counters yields the sums of what each
iteration adds. -/
theorem foldl_add_pair {β : Type} (f : β → Nat × Nat → Nat × Nat) (g h : β → Nat)
    (hf : ∀ d acc, f d acc = (acc.1 + g d, acc.2 + h d)) (l : List β) (init : Nat × Nat) :
    l.foldl (fun acc d => f d acc) init =
      (init.1 + (l.map g).sum, init.2 + (l.map h).sum) := by
  induction l generalizing init with
  | nil => simp
  | cons d rest ih =>
    simp only [List.foldl_cons, List.map_cons, List.sum_cons]
    rw [ih, hf d init]
    simp only [Prod.mk.injEq]
    omega

theorem count_eq (self : CheckersGame) (rows cols : List Int) :
    rows.foldl (fun acc r => cols.foldl (fun acc c => self.countSquare r c acc) acc) (0, 0) =
      ((rows.map (fun r => (cols.map (fun c => redIn (self.getPiece r c))).sum)).sum,
       (rows.map (fun r => (cols.map (fun c => blackIn (self.getPiece r c))).sum)).sum) := by
  have inner : ∀ (r : Int) (acc : Nat × Nat),
      cols.foldl (fun acc c => self.countSquare r c acc) acc =
        (acc.1 + (cols.map (fun c => redIn (self.getPiece r c))).sum,
         acc.2 + (cols.map (fun c => blackIn (self.getPiece r c))).sum) := fun r acc =>
    foldl_add_pair (fun c acc => self.countSquare r c acc) _ _
      (fun c acc => countSquare_eq self r c acc) cols acc
  have outer := foldl_add_pair
    (fun r acc => cols.foldl (fun acc c => self.countSquare r c acc) acc) _ _
    (fun r acc => inner r acc) rows (0, 0)
  simpa using outer

/-- The two counters of `countPieces` as sums over the 64 cells. -/
theorem countPieces_eq (self : CheckersGame) :
    self.countPieces =
      ((indices.map (fun r => (indices.map (fun c => redIn (self.getPiece r c))).sum)).sum,
       (indices.map (fun r => (indices.map (fun c => blackIn (self.getPiece r c))).sum)).sum) :=
  count_eq self indices indices

/-- Changing a function at one point of a duplicate-free list changes the sum
of its values by the difference at that point. -/
theorem sum_map_update (l : List Int) (hnd : l.Nodup) (x : Int) (hx : x ∈ l)
    (f f' : Int → Nat) (h : ∀ y ∈ l, y ≠ x → f' y = f y) :
    (l.map f').sum + f x = (l.map f).sum + f' x := by
  induction l with
  | nil => cases hx
  | cons a rest ih =>
    simp only [List.map_cons, List.sum_cons]
    have hnd2 := List.nodup_cons.1 hnd
    rcases List.mem_cons.1 hx with rfl | hmem
    · have hrest : rest.map f' = rest.map f := by
        apply List.map_congr_left
        intro y hy
        exact h y (List.mem_cons_of_mem _ hy) (fun he => hnd2.1 (he ▸ hy))
      rw [hrest]
      omega
    · have ha : f' a = f a :=
        h a (List.mem_cons_self _ _) (fun he => hnd2.1 (he ▸ hmem))
      have := ih hnd2.2 hmem (fun y hy hne => h y (List.mem_cons_of_mem _ hy) hne)
      rw [ha]
      omega

theorem indices_nodup : indices.Nodup := by decide

/-- Writing one in-range cell changes each counter by the difference between
what the new and the old content add. -/
theorem countPieces_setPiece (self : CheckersGame) (row col : Int) (piece : Cell)
    (hin : 0 ≤ row ∧ row < 8 ∧ 0 ≤ col ∧ col < 8) :
    (self.setPiece row col piece).countPieces.1 + redIn (self.getPiece row col) =
        self.countPieces.1 + redIn piece ∧
      (self.setPiece row col piece).countPieces.2 + blackIn (self.getPiece row col) =
        self.countPieces.2 + blackIn piece := by
  have hrow := (mem_indices row).2 ⟨hin.1, hin.2.1⟩
  have hcol := (mem_indices col).2 ⟨hin.2.2.1, hin.2.2.2⟩
  have key : ∀ (w : Cell → Nat),
      (indices.map (fun r => (indices.map (fun c =>
          w ((self.setPiece row col piece).getPiece r c))).sum)).sum + w (self.getPiece row col) =
        (indices.map (fun r => (indices.map (fun c => w (self.getPiece r c))).sum)).sum +
          w piece := by
    intro w
    have hother : ∀ r ∈ indices, r ≠ row →
        (indices.map (fun c => w ((self.setPiece row col piece).getPiece r c))).sum =
          (indices.map (fun c => w (self.getPiece r c))).sum := by
      intro r _ hne
      congr 1
      apply List.map_congr_left
      intro c _
      rw [getPiece_setPiece_ne _ _ _ _ _ _ (fun h => hne h.1)]
    have houter := sum_map_update indices indices_nodup row hrow
      (fun r => (indices.map (fun c => w (self.getPiece r c))).sum)
      (fun r => (indices.map (fun c => w ((self.setPiece row col piece).getPiece r c))).sum)
      hother
    have hinner := sum_map_update indices indices_nodup col hcol
      (fun c => w (self.getPiece row c))
      (fun c => w ((self.setPiece row col piece).getPiece row c))
      (fun c _ hne => by
        simp only []
        rw [getPiece_setPiece_ne _ _ _ _ _ _ (fun h => hne h.2)])
    simp only [] at houter hinner
    rw [getPiece_setPiece_self _ _ _ _ hin] at hinner
    omega
  rw [countPieces_eq, countPieces_eq]
  exact ⟨key redIn, key blackIn⟩

theorem redIn_promoted (piece : Piece) (toRow : Int) :
    redIn (some (promoted piece toRow)) = redIn (some piece) ∧
      blackIn (some (promoted piece toRow)) = blackIn (some piece) := by
  simp [redIn, blackIn, promoted_toLowerCase]

/-- What an opponent piece adds to the counters. -/
theorem count_of_opponent (self : CheckersGame) (cell : Cell)
    (h : self.isOpponentPiece cell = true) :
    (self.currentPlayer = Player.red → redIn cell = 0 ∧ blackIn cell = 1) ∧
      (self.currentPlayer = Player.black → redIn cell = 1 ∧ blackIn cell = 0) := by
  cases cell with
  | none => simp [isOpponentPiece] at h
  | some q =>
    unfold isOpponentPiece at h
    simp only [Bool.or_eq_true, Bool.and_eq_true, beq_iff_eq] at h
    rcases h with ⟨hc, hl⟩ | ⟨hc, hl⟩
    · simp [redIn, blackIn, hc, hl]
    · simp [redIn, blackIn, hc, hl]

/-- What an own piece adds to the counters. -/
theorem count_of_own (self : CheckersGame) (cell : Cell)
    (h : self.isOwnPiece cell = true) :
    (self.currentPlayer = Player.red → redIn cell = 1 ∧ blackIn cell = 0) ∧
      (self.currentPlayer = Player.black → redIn cell = 0 ∧ blackIn cell = 1) := by
  cases cell with
  | none => simp [isOwnPiece] at h
  | some q =>
    unfold isOwnPiece at h
    simp only [Bool.or_eq_true, Bool.and_eq_true, beq_iff_eq] at h
    rcases h with ⟨hc, hl⟩ | ⟨hc, hl⟩
    · simp [redIn, blackIn, hc, hl]
    · simp [redIn, blackIn, hc, hl]

/-- The counters after the board update of an accepted request: the cell that
the move empties besides `from` is the captured one. -/
theorem countPieces_executeMove (self : CheckersGame) (move : MoveRequest) (piece : Piece)
    (fullMove : Move)
    (hp : self.getPiece move.from_.1 move.from_.2 = some piece)
    (hf : self.findMove move = some fullMove) :
    ∃ captured : Cell,
      (self.executeMove move piece fullMove).countPieces.1 + redIn captured =
        self.countPieces.1 ∧
      (self.executeMove move piece fullMove).countPieces.2 + blackIn captured =
        self.countPieces.2 ∧
      (fullMove.type = MoveType.move → captured = none) ∧
      (fullMove.type = MoveType.jump → self.isOpponentPiece captured = true) := by
  obtain ⟨hm, hfrom, hto⟩ := findMove_some self move fullMove hf
  obtain ⟨piece2, rowDir, colDir, hp2, _, hrd, hcd, hin, hempty, hshape⟩ :=
    legal_move_shape self fullMove hm
  have hrd2 := directions_abs piece2 rowDir hrd
  rw [hfrom] at hp2 hshape
  rw [hto] at hin hempty hshape
  have hfin := inRange_of_getPiece_some self _ _ piece hp
  have hne : ¬ (move.from_.1 = move.to_.1 ∧ move.from_.2 = move.to_.2) := by
    rcases hshape with ⟨_, ht, _⟩ | ⟨_, ht, _⟩
    · rw [ht]; simp only; omega
    · rw [ht]; simp only; omega
  have hne2 : ¬ (move.to_.1 = move.from_.1 ∧ move.to_.2 = move.from_.2) :=
    fun h => hne ⟨h.1.symm, h.2.symm⟩
  -- the piece is written on the destination
  have c1 := countPieces_setPiece self move.to_.1 move.to_.2 (some piece) hin
  rw [hempty] at c1
  -- the origin is cleared
  have h1from : (self.setPiece move.to_.1 move.to_.2 (some piece)).getPiece
      move.from_.1 move.from_.2 = some piece := by
    rw [getPiece_setPiece_ne _ _ _ _ _ _ hne, hp]
  have c2 := countPieces_setPiece (self.setPiece move.to_.1 move.to_.2 (some piece))
    move.from_.1 move.from_.2 none hfin
  rw [h1from] at c2
  have h2to : ((self.setPiece move.to_.1 move.to_.2 (some piece)).setPiece
      move.from_.1 move.from_.2 none).getPiece move.to_.1 move.to_.2 = some piece := by
    rw [getPiece_setPiece_ne _ _ _ _ _ _ hne2, getPiece_setPiece_self _ _ _ _ hin]
  -- the promotion check rewrites the destination with a piece of the same colour
  have promo : ∀ g : CheckersGame, g.getPiece move.to_.1 move.to_.2 = some piece →
      (if piece.toLowerCase == Piece.r && move.to_.1 == 0 then
          g.setPiece move.to_.1 move.to_.2 (some Piece.R)
        else if piece.toLowerCase == Piece.b && move.to_.1 == 7 then
          g.setPiece move.to_.1 move.to_.2 (some Piece.B)
        else g).countPieces = g.countPieces := by
    intro g hg
    split_ifs with h1 h2
    · have c := countPieces_setPiece g move.to_.1 move.to_.2 (some Piece.R) hin
      rw [hg] at c
      simp only [Bool.and_eq_true, beq_iff_eq] at h1
      have e1 : redIn (some piece) = 1 := by simp [redIn, h1.1]
      have e2 : blackIn (some piece) = 0 := by simp [blackIn, h1.1]
      have e3 : redIn (some Piece.R) = 1 := rfl
      have e4 : blackIn (some Piece.R) = 0 := rfl
      rw [e1, e3] at c
      rw [e2, e4] at c
      exact Prod.ext (by omega) (by omega)
    · have c := countPieces_setPiece g move.to_.1 move.to_.2 (some Piece.B) hin
      rw [hg] at c
      simp only [Bool.and_eq_true, beq_iff_eq] at h2
      have e1 : redIn (some piece) = 0 := by simp [redIn, h2.1]
      have e2 : blackIn (some piece) = 1 := by simp [blackIn, h2.1]
      have e3 : redIn (some Piece.B) = 0 := rfl
      have e4 : blackIn (some Piece.B) = 1 := rfl
      rw [e1, e3] at c
      rw [e2, e4] at c
      exact Prod.ext (by omega) (by omega)
    · rfl
  have r0 : redIn (none : Cell) = 0 := rfl
  have b0 : blackIn (none : Cell) = 0 := rfl
  rw [r0, b0] at c1 c2
  unfold executeMove
  simp only []
  rcases hshape with ⟨hty, _, _⟩ | ⟨hty, ht, hcaps, hopp⟩
  · have hjf : (fullMove.type == MoveType.jump) = false := by rw [hty]; rfl
    refine ⟨none, ?_, ?_, fun _ => rfl, fun h => by rw [hty] at h; cases h⟩
    · simp only [hjf, Bool.false_eq_true, if_false]
      rw [promo _ h2to, r0]
      omega
    · simp only [hjf, Bool.false_eq_true, if_false]
      rw [promo _ h2to, b0]
      omega
  · have hjt : (fullMove.type == MoveType.jump) = true := by rw [hty]; rfl
    refine ⟨self.getPiece (move.from_.1 + rowDir) (move.from_.2 + colDir), ?_, ?_,
      (fun h => by rw [hty] at h; cases h), fun _ => hopp⟩
    all_goals
      simp only [hjt, hcaps, if_true, List.foldl_cons, List.foldl_nil]
      have hmid_some : ∃ q, self.getPiece (move.from_.1 + rowDir) (move.from_.2 + colDir) =
          some q := by
        cases hq : self.getPiece (move.from_.1 + rowDir) (move.from_.2 + colDir) with
        | none => rw [hq] at hopp; simp [isOpponentPiece] at hopp
        | some q => exact ⟨q, rfl⟩
      obtain ⟨q, hq⟩ := hmid_some
      have hmin := inRange_of_getPiece_some self _ _ q hq
      have hmf : ¬ (move.from_.1 + rowDir = move.from_.1 ∧
          move.from_.2 + colDir = move.from_.2) := by omega
      have hmt : ¬ (move.from_.1 + rowDir = move.to_.1 ∧
          move.from_.2 + colDir = move.to_.2) := by
        rw [ht]; simp only; omega
      have htm : ¬ (move.to_.1 = move.from_.1 + rowDir ∧
          move.to_.2 = move.from_.2 + colDir) := fun h => hmt ⟨h.1.symm, h.2.symm⟩
      have h2mid : ((self.setPiece move.to_.1 move.to_.2 (some piece)).setPiece
          move.from_.1 move.from_.2 none).getPiece (move.from_.1 + rowDir)
            (move.from_.2 + colDir) =
          self.getPiece (move.from_.1 + rowDir) (move.from_.2 + colDir) := by
        rw [getPiece_setPiece_ne _ _ _ _ _ _ hmf, getPiece_setPiece_ne _ _ _ _ _ _ hmt]
      have c3 := countPieces_setPiece
        ((self.setPiece move.to_.1 move.to_.2 (some piece)).setPiece
          move.from_.1 move.from_.2 none)
        (move.from_.1 + rowDir) (move.from_.2 + colDir) none hmin
      rw [h2mid, r0, b0] at c3
      have h3to : (((self.setPiece move.to_.1 move.to_.2 (some piece)).setPiece
          move.from_.1 move.from_.2 none).setPiece (move.from_.1 + rowDir)
            (move.from_.2 + colDir) none).getPiece move.to_.1 move.to_.2 = some piece := by
        rw [getPiece_setPiece_ne _ _ _ _ _ _ htm, h2to]
      rw [promo _ h3to]
      omega

/-! ## Lemmas on reachable states -/

theorem promoted_ne_man (piece : Piece) :
    promoted piece 0 ≠ Piece.r ∧ promoted piece 7 ≠ Piece.b := by
  cases piece <;> exact ⟨by decide, by decide⟩

theorem boardInvariant_new : BoardInvariant CheckersGame.new := by
  have key : ∀ row ∈ indices, ∀ col ∈ indices,
      (CheckersGame.new.getPiece row col = none ∨ (row + col) % 2 = 1) ∧
      CheckersGame.new.getPiece 0 col ≠ some Piece.r ∧
      CheckersGame.new.getPiece 7 col ≠ some Piece.b := by decide
  refine ⟨?_, by decide, by decide, ?_, ?_⟩
  · intro row col piece hp
    have hin := inRange_of_getPiece_some _ row col piece hp
    rcases (key row ((mem_indices row).2 ⟨hin.1, hin.2.1⟩) col
      ((mem_indices col).2 ⟨hin.2.2.1, hin.2.2.2⟩)).1 with h | h
    · rw [h] at hp; cases hp
    · exact h
  · intro col
    by_cases hc : 0 ≤ col ∧ col < 8
    · exact (key 0 (by decide) col ((mem_indices col).2 hc)).2.1
    · rw [getPiece_outOfRange _ 0 col (by omega)]
      exact fun h => by cases h
  · intro col
    by_cases hc : 0 ≤ col ∧ col < 8
    · exact (key 0 (by decide) col ((mem_indices col).2 hc)).2.2
    · rw [getPiece_outOfRange _ 7 col (by omega)]
      exact fun h => by cases h

/-- One `makeMove` call keeps the board invariant. -/
theorem boardInvariant_makeMove (self : CheckersGame) (move : MoveRequest)
    (hinv : BoardInvariant self) : BoardInvariant (self.makeMove move).2 := by
  cases hres : (self.makeMove move).1 with
  | false => rw [makeMove_of_false self move hres]; exact hinv
  | true =>
    obtain ⟨piece, m, _, hp, _, hf, hafter⟩ := makeMove_of_true self move hres
    obtain ⟨hto, hne, hcap⟩ := legal_request self move m hf
    obtain ⟨hm, hfrom, hmto⟩ := findMove_some self move m hf
    obtain ⟨piece2, rowDir, colDir, _, _, hrd, hcd, _, _, hshape⟩ :=
      legal_move_shape self m hm
    have hrd2 := directions_abs piece2 rowDir hrd
    rw [hfrom, hmto] at hshape
    obtain ⟨hpar, hred, hblack, hrow0, hrow7⟩ := hinv
    have hboard : (self.makeMove move).2.board = (self.executeMove move piece m).board := by
      rw [hafter]; exact finishMove_board _ move m
    have hcell : ∀ r c, (self.makeMove move).2.getPiece r c =
        if (r, c) = move.to_ then some (promoted piece move.to_.1)
        else if (r, c) = move.from_ then none
        else if m.type = MoveType.jump ∧ (r, c) ∈ m.captures then none
        else self.getPiece r c := by
      intro r c
      rw [getPiece_of_board _ _ hboard, getPiece_executeMove self move piece m r c hto hne hcap]
    have hparfrom := hpar _ _ piece hp
    have hparto : (move.to_.1 + move.to_.2) % 2 = 1 := by
      rcases hshape with ⟨_, ht, _⟩ | ⟨_, ht, _⟩
      · rw [ht]; simp only; omega
      · rw [ht]; simp only; omega
    obtain ⟨captured, hc1, hc2, _, _⟩ := countPieces_executeMove self move piece m hp hf
    rw [← countPieces_of_board _ _ hboard] at hc1 hc2
    refine ⟨?_, by omega, by omega, ?_, ?_⟩
    · intro r c q hq
      rw [hcell] at hq
      split_ifs at hq with h1 h2 h3
      · have hr : r = move.to_.1 := by rw [← h1]
        have hc : c = move.to_.2 := by rw [← h1]
        rw [hr, hc]; exact hparto
      · exact hpar r c q hq
    · intro c hq
      rw [hcell] at hq
      split_ifs at hq with h1 h2 h3
      · have hr : (0 : Int) = move.to_.1 := by rw [← h1]
        rw [← hr] at hq
        exact (promoted_ne_man piece).1 (Option.some.inj hq)
      · exact hrow0 c hq
    · intro c hq
      rw [hcell] at hq
      split_ifs at hq with h1 h2 h3
      · have hr : (7 : Int) = move.to_.1 := by rw [← h1]
        rw [← hr] at hq
        exact (promoted_ne_man piece).2 (Option.some.inj hq)
      · exact hrow7 c hq

/-- Every reachable state satisfies the board invariant. -/
theorem boardInvariant_of_reachable (self : CheckersGame) (h : Reachable self) :
    BoardInvariant self := by
  induction h with
  | start => exact boardInvariant_new
  | step g move _ ih => exact boardInvariant_makeMove g move ih

/-- One `makeMove` call leaves a state that has a winner or a legal move. -/
theorem live_makeMove (self : CheckersGame) (move : MoveRequest)
    (hlive : self.winner = none → self.getAllValidMoves ≠ [])
    (hw : (self.makeMove move).2.winner = none) :
    (self.makeMove move).2.getAllValidMoves ≠ [] := by
  cases hres : (self.makeMove move).1 with
  | false =>
    have := makeMove_of_false self move hres
    rw [this] at hw ⊢
    exact hlive hw
  | true =>
    obtain ⟨piece, m, hw0, _, _, _, hafter⟩ := makeMove_of_true self move hres
    obtain ⟨_, _, _, hwin⟩ := executeMove_fields self move piece m
    by_cases hc : m.type = MoveType.jump ∧
        (self.executeMove move piece m).canContinueJumping move.to_.1 move.to_.2 = true
    · rw [hafter, finishMove_continue _ move m hc.1 hc.2]
      rw [getAllValidMoves_continuation _ (move.to_.1, move.to_.2) rfl rfl]
      obtain ⟨j, hj, ht⟩ := (canContinueJumping_iff _ _ _).1 hc.2
      have hj2 : j ∈ ({ self.executeMove move piece m with
          mustJump := true
          selectedPiece := some (move.to_.1, move.to_.2) } : CheckersGame).getValidMoves
            move.to_.1 move.to_.2 := hj
      intro hnil
      have hmem : j ∈ List.filter (fun m => m.type == MoveType.jump)
          (({ self.executeMove move piece m with
            mustJump := true
            selectedPiece := some (move.to_.1, move.to_.2) } : CheckersGame).getValidMoves
              move.to_.1 move.to_.2) :=
        List.mem_filter.2 ⟨hj2, by simp [ht]⟩
      rw [hnil] at hmem
      cases hmem
    · rw [hafter, finishMove_switch _ move m hc] at hw ⊢
      have hwn : ({ self.executeMove move piece m with
          currentPlayer := other (self.executeMove move piece m).currentPlayer
          mustJump := false
          selectedPiece := none } : CheckersGame).winner = none := by
        rw [← hw0, ← hwin]
      rw [checkWinCondition_winner _ hwn] at hw
      rw [checkWinCondition_eq, getAllValidMoves_winner]
      intro hnil
      rw [hnil] at hw
      split_ifs at hw with h1 h2 h3
      exact h3 rfl

/-- Every reachable state with no winner has a legal move. -/
theorem live_of_reachable (self : CheckersGame) (h : Reachable self)
    (hw : self.winner = none) : self.getAllValidMoves ≠ [] := by
  induction h with
  | start => decide
  | step g move _ ih => exact live_makeMove g move ih hw

end CheckersGame

/-! ## The claims -/

namespace CheckersGame

/-- C1: `makeMove` returns true exactly when no winner is set and the legal set
`getAllValidMoves()` of the state before the call contains a move whose `from`
and `to` squares are the request's; in every other case it returns false. -/
theorem C1_makeMove_accepts_iff_legal (self : CheckersGame) (move : MoveRequest) :
    (self.makeMove move).1 = true ↔
      self.winner = none ∧
        ∃ m ∈ self.getAllValidMoves, m.from_ = move.from_ ∧ m.to_ = move.to_ :=
  makeMove_fst self move

/-- C2: a `makeMove` call that returns false leaves the whole engine state
(board, currentPlayer, mustJump, selectedPiece, winner) as it was, hence the
same `getBoardState()`; once a winner is set every call returns false and
changes nothing. -/
theorem C2_rejected_move_changes_nothing (self : CheckersGame) (move : MoveRequest) :
    ((self.makeMove move).1 = false →
        (self.makeMove move).2 = self ∧
          (self.makeMove move).2.toJS.getBoardState = self.toJS.getBoardState) ∧
      (self.winner ≠ none →
        (self.makeMove move).1 = false ∧ (self.makeMove move).2 = self) := by
  constructor
  · intro h
    have := makeMove_of_false self move h
    exact ⟨this, by rw [this]⟩
  · intro hw
    have hf : (self.makeMove move).1 = false := by
      cases hb : (self.makeMove move).1 with
      | false => rfl
      | true => exact absurd ((makeMove_fst self move).1 hb).1 hw
    exact ⟨hf, makeMove_of_false self move hf⟩

theorem C2_rejected_move_changes_nothing_witness :
    ((CheckersGame.new.makeMove ⟨(5, 0), (3, 2)⟩).1 = false ∧
        (CheckersGame.new.makeMove ⟨(5, 0), (3, 2)⟩).2 = CheckersGame.new) ∧
      ((loneJump.makeMove ⟨(3, 2), (1, 4)⟩).2.winner ≠ none ∧
        (((loneJump.makeMove ⟨(3, 2), (1, 4)⟩).2.makeMove ⟨(1, 4), (0, 3)⟩).2 =
          (loneJump.makeMove ⟨(3, 2), (1, 4)⟩).2)) :=
  ⟨⟨by decide,
      ((C2_rejected_move_changes_nothing CheckersGame.new ⟨(5, 0), (3, 2)⟩).1 (by decide)).1⟩,
    ⟨by decide,
      ((C2_rejected_move_changes_nothing (loneJump.makeMove ⟨(3, 2), (1, 4)⟩).2
        ⟨(1, 4), (0, 3)⟩).2 (by decide)).2⟩⟩

/-- C3: if some piece of the player to move has a jump in `getValidMoves`, the
legal set contains no step; and when no continuation is pending the legal set
is exactly the jumps of all squares if a jump exists, and exactly the steps of
all squares otherwise. -/
theorem C3_forced_capture (self : CheckersGame) :
    ((∃ row col j, j ∈ self.getValidMoves row col ∧ j.type = MoveType.jump) →
        ∀ m ∈ self.getAllValidMoves, m.type ≠ MoveType.move) ∧
      ((self.mustJump = false ∨ self.selectedPiece = none) →
        ((∃ row col j, j ∈ self.getValidMoves row col ∧ j.type = MoveType.jump) →
          ∀ m, m ∈ self.getAllValidMoves ↔
            (m.type = MoveType.jump ∧ ∃ row col, m ∈ self.getValidMoves row col)) ∧
        ((¬ ∃ row col j, j ∈ self.getValidMoves row col ∧ j.type = MoveType.jump) →
          ∀ m, m ∈ self.getAllValidMoves ↔
            (m.type = MoveType.move ∧ ∃ row col, m ∈ self.getValidMoves row col))) := by
  have hlen : (∃ row col j, j ∈ self.getValidMoves row col ∧ j.type = MoveType.jump) ↔
      self.scanBoard.2.length > 0 := by
    constructor
    · rintro ⟨row, col, j, hj, ht⟩
      exact List.length_pos_of_mem ((mem_scanBoard_jumps self j).2 ⟨ht, row, col, hj⟩)
    · intro hpos
      obtain ⟨j, hj⟩ := List.exists_mem_of_length_pos hpos
      obtain ⟨ht, row, col, hm⟩ := (mem_scanBoard_jumps self j).1 hj
      exact ⟨row, col, j, hm, ht⟩
  have hscan : (self.mustJump = false ∨ self.selectedPiece = none) →
      ((∃ row col j, j ∈ self.getValidMoves row col ∧ j.type = MoveType.jump) →
        ∀ m, m ∈ self.getAllValidMoves ↔
          (m.type = MoveType.jump ∧ ∃ row col, m ∈ self.getValidMoves row col)) ∧
      ((¬ ∃ row col j, j ∈ self.getValidMoves row col ∧ j.type = MoveType.jump) →
        ∀ m, m ∈ self.getAllValidMoves ↔
          (m.type = MoveType.move ∧ ∃ row col, m ∈ self.getValidMoves row col)) := by
    intro hc
    rw [getAllValidMoves_scan self hc]
    constructor
    · intro hex m
      rw [if_pos (hlen.1 hex)]
      exact mem_scanBoard_jumps self m
    · intro hex m
      rw [if_neg (fun h => hex (hlen.2 h))]
      exact mem_scanBoard_steps self m
  refine ⟨?_, hscan⟩
  intro hex m hm
  by_cases hc : self.mustJump = false ∨ self.selectedPiece = none
  · have := (((hscan hc).1 hex) m).1 hm
    rw [this.1]
    exact fun h => by cases h
  · have hmj : self.mustJump = true := by
      cases hmj : self.mustJump
      · exact absurd (Or.inl hmj) hc
      · rfl
    cases hs : self.selectedPiece with
    | none => exact absurd (Or.inr hs) hc
    | some p =>
      rw [getAllValidMoves_continuation self p hmj hs] at hm
      have := (List.mem_filter.1 hm).2
      simp only [beq_iff_eq] at this
      rw [this]
      exact fun h => by cases h

theorem C3_forced_capture_witness :
    ((∃ row col j, j ∈ loneJump.getValidMoves row col ∧ j.type = MoveType.jump) ∧
        (∀ m ∈ loneJump.getAllValidMoves, m.type ≠ MoveType.move) ∧
        (∀ m, m ∈ loneJump.getAllValidMoves ↔
            (m.type = MoveType.jump ∧ ∃ row col, m ∈ loneJump.getValidMoves row col))) ∧
      ((¬ ∃ row col j, j ∈ CheckersGame.new.getValidMoves row col ∧ j.type = MoveType.jump) ∧
        (∀ m, m ∈ CheckersGame.new.getAllValidMoves ↔
            (m.type = MoveType.move ∧ ∃ row col, m ∈ CheckersGame.new.getValidMoves row col))) :=
  have hj : ∃ row col j, j ∈ loneJump.getValidMoves row col ∧ j.type = MoveType.jump :=
    ⟨3, 2, ⟨(3, 2), (1, 4), MoveType.jump, [(2, 3)]⟩, by decide, rfl⟩
  ⟨⟨hj, (C3_forced_capture loneJump).1 hj,
      ((C3_forced_capture loneJump).2 (Or.inl rfl)).1 hj⟩,
    ⟨no_jump_at_start,
      ((C3_forced_capture CheckersGame.new).2 (Or.inl rfl)).2 no_jump_at_start⟩⟩

/-- C4: while a continuation is pending (`mustJump` set, `selectedPiece = p`)
the legal set is exactly the jumps of `getValidMoves(p)`, so every legal move is
a jump from `p`; and after an accepted jump that leaves a further jump from the
landing square, the continuation is that square and every legal move is a jump
from it. -/
theorem C4_multi_jump_exclusivity :
    (∀ (self : CheckersGame) (p : Int × Int),
        self.mustJump = true → self.selectedPiece = some p →
        self.getAllValidMoves =
            (self.getValidMoves p.1 p.2).filter (fun m => m.type == MoveType.jump) ∧
          ∀ m ∈ self.getAllValidMoves, m.type = MoveType.jump ∧ m.from_ = p) ∧
      (∀ (self : CheckersGame) (move : MoveRequest) (piece : Piece) (fullMove : Move),
        (self.makeMove move).1 = true →
        self.getPiece move.from_.1 move.from_.2 = some piece →
        self.findMove move = some fullMove →
        fullMove.type = MoveType.jump →
        (∃ j ∈ (self.executeMove move piece fullMove).getValidMoves move.to_.1 move.to_.2,
          j.type = MoveType.jump) →
        (self.makeMove move).2.mustJump = true ∧
          (self.makeMove move).2.selectedPiece = some move.to_ ∧
          ∀ m ∈ (self.makeMove move).2.getAllValidMoves,
            m.type = MoveType.jump ∧ m.from_ = move.to_) := by
  have part1 : ∀ (self : CheckersGame) (p : Int × Int),
      self.mustJump = true → self.selectedPiece = some p →
      self.getAllValidMoves =
          (self.getValidMoves p.1 p.2).filter (fun m => m.type == MoveType.jump) ∧
        ∀ m ∈ self.getAllValidMoves, m.type = MoveType.jump ∧ m.from_ = p := by
    intro self p hm hs
    have heq := getAllValidMoves_continuation self p hm hs
    refine ⟨heq, ?_⟩
    intro m hmem
    rw [heq] at hmem
    obtain ⟨h1, h2⟩ := List.mem_filter.1 hmem
    simp only [beq_iff_eq] at h2
    exact ⟨h2, from_of_mem_getValidMoves self p.1 p.2 m h1⟩
  refine ⟨part1, ?_⟩
  intro self move piece fullMove hok hp hf hj hex
  obtain ⟨piece2, fullMove2, _, hp2, _, hf2, hafter⟩ := makeMove_of_true self move hok
  rw [hp] at hp2
  rw [hf] at hf2
  cases hp2
  cases hf2
  have hcont := finishMove_continue (self.executeMove move piece fullMove) move fullMove hj
    ((canContinueJumping_iff _ _ _).2 hex)
  rw [hcont] at hafter
  have hmj : (self.makeMove move).2.mustJump = true := by rw [hafter]
  have hsp : (self.makeMove move).2.selectedPiece = some move.to_ := by rw [hafter]
  exact ⟨hmj, hsp, (part1 _ move.to_ hmj hsp).2⟩

theorem C4_multi_jump_exclusivity_witness :
    ((doubleJump.makeMove ⟨(4, 1), (2, 3)⟩).1 = true ∧
      (doubleJump.makeMove ⟨(4, 1), (2, 3)⟩).2.mustJump = true ∧
      (doubleJump.makeMove ⟨(4, 1), (2, 3)⟩).2.selectedPiece = some (2, 3) ∧
      ∀ m ∈ (doubleJump.makeMove ⟨(4, 1), (2, 3)⟩).2.getAllValidMoves,
        m.type = MoveType.jump ∧ m.from_ = (2, 3)) ∧
    ((doubleJump.makeMove ⟨(4, 1), (2, 3)⟩).2.getAllValidMoves =
        ((doubleJump.makeMove ⟨(4, 1), (2, 3)⟩).2.getValidMoves 2 3).filter
          (fun m => m.type == MoveType.jump)) :=
  ⟨⟨by decide,
      C4_multi_jump_exclusivity.2 doubleJump ⟨(4, 1), (2, 3)⟩ Piece.r
        ⟨(4, 1), (2, 3), MoveType.jump, [(3, 2)]⟩ (by decide) (by decide) (by decide) rfl
        ⟨⟨(2, 3), (0, 5), MoveType.jump, [(1, 4)]⟩, by decide, rfl⟩⟩,
    (C4_multi_jump_exclusivity.1 (doubleJump.makeMove ⟨(4, 1), (2, 3)⟩).2 (2, 3)
      (by decide) (by decide)).1⟩

/-- C5: when `makeMove` accepts a request with matched move `m` made by `piece`:
if `m` is a jump and `getValidMoves` at the landing square of the updated board
(player not yet switched) contains a jump, the continuation is set to the
landing square and `currentPlayer` is unchanged; otherwise `currentPlayer` is
switched and the continuation cleared.  So a continuation is present afterwards
iff the move was a jump leaving a further jump for the same piece. -/
theorem C5_continuation_or_switch (self : CheckersGame) (move : MoveRequest)
    (h : (self.makeMove move).1 = true) :
    ∃ piece m,
      self.getPiece move.from_.1 move.from_.2 = some piece ∧
      self.findMove move = some m ∧
      (self.executeMove move piece m).currentPlayer = self.currentPlayer ∧
      ((m.type = MoveType.jump ∧
          ∃ j ∈ (self.executeMove move piece m).getValidMoves move.to_.1 move.to_.2,
            j.type = MoveType.jump) →
        (self.makeMove move).2.mustJump = true ∧
          (self.makeMove move).2.selectedPiece = some move.to_ ∧
          (self.makeMove move).2.currentPlayer = self.currentPlayer) ∧
      (¬ (m.type = MoveType.jump ∧
          ∃ j ∈ (self.executeMove move piece m).getValidMoves move.to_.1 move.to_.2,
            j.type = MoveType.jump) →
        (self.makeMove move).2.currentPlayer = other self.currentPlayer ∧
          (self.makeMove move).2.mustJump = false ∧
          (self.makeMove move).2.selectedPiece = none) ∧
      (((self.makeMove move).2.mustJump = true ∧ (self.makeMove move).2.selectedPiece ≠ none) ↔
        (m.type = MoveType.jump ∧
          ∃ j ∈ (self.executeMove move piece m).getValidMoves move.to_.1 move.to_.2,
            j.type = MoveType.jump)) := by
  obtain ⟨piece, m, _, hp, _, hf, hafter⟩ := makeMove_of_true self move h
  have hcp := (executeMove_fields self move piece m).1
  have yes : (m.type = MoveType.jump ∧
        ∃ j ∈ (self.executeMove move piece m).getValidMoves move.to_.1 move.to_.2,
          j.type = MoveType.jump) →
      (self.makeMove move).2.mustJump = true ∧
        (self.makeMove move).2.selectedPiece = some move.to_ ∧
        (self.makeMove move).2.currentPlayer = self.currentPlayer := by
    rintro ⟨hj, hex⟩
    rw [hafter, finishMove_continue _ move m hj ((canContinueJumping_iff _ _ _).2 hex)]
    exact ⟨rfl, rfl, hcp⟩
  have no : ¬ (m.type = MoveType.jump ∧
        ∃ j ∈ (self.executeMove move piece m).getValidMoves move.to_.1 move.to_.2,
          j.type = MoveType.jump) →
      (self.makeMove move).2.currentPlayer = other self.currentPlayer ∧
        (self.makeMove move).2.mustJump = false ∧
        (self.makeMove move).2.selectedPiece = none := by
    intro hn
    have hn2 : ¬ (m.type = MoveType.jump ∧
        (self.executeMove move piece m).canContinueJumping move.to_.1 move.to_.2 = true) :=
      fun hc => hn ⟨hc.1, (canContinueJumping_iff _ _ _).1 hc.2⟩
    rw [hafter, finishMove_switch _ move m hn2]
    obtain ⟨_, h2, h3, h4⟩ := checkWinCondition_board
      { self.executeMove move piece m with
        currentPlayer := other (self.executeMove move piece m).currentPlayer
        mustJump := false
        selectedPiece := none }
    rw [h2, h3, h4, hcp]
    exact ⟨rfl, rfl, rfl⟩
  refine ⟨piece, m, hp, hf, hcp, yes, no, ?_⟩
  constructor
  · rintro ⟨hmj, _⟩
    by_contra hn
    rw [(no hn).2.1] at hmj
    cases hmj
  · intro hy
    obtain ⟨h1, h2, _⟩ := yes hy
    exact ⟨h1, by rw [h2]; exact fun h => by cases h⟩

theorem C5_continuation_or_switch_witness :
    (doubleJump.makeMove ⟨(4, 1), (2, 3)⟩).1 = true ∧
      ∃ piece m,
        doubleJump.getPiece 4 1 = some piece ∧
        doubleJump.findMove ⟨(4, 1), (2, 3)⟩ = some m ∧
        (doubleJump.executeMove ⟨(4, 1), (2, 3)⟩ piece m).currentPlayer = Player.red ∧
        ((m.type = MoveType.jump ∧
            ∃ j ∈ (doubleJump.executeMove ⟨(4, 1), (2, 3)⟩ piece m).getValidMoves 2 3,
              j.type = MoveType.jump) →
          (doubleJump.makeMove ⟨(4, 1), (2, 3)⟩).2.mustJump = true ∧
            (doubleJump.makeMove ⟨(4, 1), (2, 3)⟩).2.selectedPiece = some (2, 3) ∧
            (doubleJump.makeMove ⟨(4, 1), (2, 3)⟩).2.currentPlayer = Player.red) ∧
        (¬ (m.type = MoveType.jump ∧
            ∃ j ∈ (doubleJump.executeMove ⟨(4, 1), (2, 3)⟩ piece m).getValidMoves 2 3,
              j.type = MoveType.jump) →
          (doubleJump.makeMove ⟨(4, 1), (2, 3)⟩).2.currentPlayer = other Player.red ∧
            (doubleJump.makeMove ⟨(4, 1), (2, 3)⟩).2.mustJump = false ∧
            (doubleJump.makeMove ⟨(4, 1), (2, 3)⟩).2.selectedPiece = none) ∧
        (((doubleJump.makeMove ⟨(4, 1), (2, 3)⟩).2.mustJump = true ∧
            (doubleJump.makeMove ⟨(4, 1), (2, 3)⟩).2.selectedPiece ≠ none) ↔
          (m.type = MoveType.jump ∧
            ∃ j ∈ (doubleJump.executeMove ⟨(4, 1), (2, 3)⟩ piece m).getValidMoves 2 3,
              j.type = MoveType.jump)) :=
  ⟨by decide, C5_continuation_or_switch doubleJump ⟨(4, 1), (2, 3)⟩ (by decide)⟩

/-- C6: when `makeMove` accepts a request, the destination holds on return: a
red king if the moved piece is a red man and the destination row is 0; a black
king if it is a black man and the destination row is 7; the same man if a man
lands on another row; and the same king if the moved piece is a king. -/
theorem C6_promotion (self : CheckersGame) (move : MoveRequest)
    (h : (self.makeMove move).1 = true) :
    ∃ piece, self.getPiece move.from_.1 move.from_.2 = some piece ∧
      (piece = Piece.r → move.to_.1 = 0 →
        (self.makeMove move).2.getPiece move.to_.1 move.to_.2 = some Piece.R) ∧
      (piece = Piece.b → move.to_.1 = 7 →
        (self.makeMove move).2.getPiece move.to_.1 move.to_.2 = some Piece.B) ∧
      (piece = Piece.r → move.to_.1 ≠ 0 →
        (self.makeMove move).2.getPiece move.to_.1 move.to_.2 = some Piece.r) ∧
      (piece = Piece.b → move.to_.1 ≠ 7 →
        (self.makeMove move).2.getPiece move.to_.1 move.to_.2 = some Piece.b) ∧
      (piece = Piece.R →
        (self.makeMove move).2.getPiece move.to_.1 move.to_.2 = some Piece.R) ∧
      (piece = Piece.B →
        (self.makeMove move).2.getPiece move.to_.1 move.to_.2 = some Piece.B) := by
  obtain ⟨piece, hp, _, hto⟩ := getPiece_to_after_makeMove self move h
  refine ⟨piece, hp, ?_, ?_, ?_, ?_, ?_, ?_⟩
  · intro hpc hrow
    rw [hto, hpc, hrow]; rfl
  · intro hpc hrow
    rw [hto, hpc, hrow]; rfl
  · intro hpc hrow
    rw [hto, hpc]
    simp [promoted, Piece.toLowerCase, hrow]
  · intro hpc hrow
    rw [hto, hpc]
    simp [promoted, Piece.toLowerCase, hrow]
  · intro hpc
    rw [hto, hpc]
    unfold promoted
    split_ifs <;> simp_all [Piece.toLowerCase]
  · intro hpc
    rw [hto, hpc]
    unfold promoted
    split_ifs <;> simp_all [Piece.toLowerCase]

theorem C6_promotion_witness :
    (nearCrown.makeMove ⟨(1, 2), (0, 1)⟩).1 = true ∧
      ∃ piece, nearCrown.getPiece 1 2 = some piece ∧
        (piece = Piece.r → (0 : Int) = 0 →
          (nearCrown.makeMove ⟨(1, 2), (0, 1)⟩).2.getPiece 0 1 = some Piece.R) ∧
        (piece = Piece.b → (0 : Int) = 7 →
          (nearCrown.makeMove ⟨(1, 2), (0, 1)⟩).2.getPiece 0 1 = some Piece.B) ∧
        (piece = Piece.r → (0 : Int) ≠ 0 →
          (nearCrown.makeMove ⟨(1, 2), (0, 1)⟩).2.getPiece 0 1 = some Piece.r) ∧
        (piece = Piece.b → (0 : Int) ≠ 7 →
          (nearCrown.makeMove ⟨(1, 2), (0, 1)⟩).2.getPiece 0 1 = some Piece.b) ∧
        (piece = Piece.R →
          (nearCrown.makeMove ⟨(1, 2), (0, 1)⟩).2.getPiece 0 1 = some Piece.R) ∧
        (piece = Piece.B →
          (nearCrown.makeMove ⟨(1, 2), (0, 1)⟩).2.getPiece 0 1 = some Piece.B) :=
  ⟨by decide, C6_promotion nearCrown ⟨(1, 2), (0, 1)⟩ (by decide)⟩

/-- C7: with no winner set, if `makeMove` accepts a request and the board it
leaves has no piece of the mover's opponent, then on return the winner is the
mover's colour, the player has been switched and no continuation is pending. -/
theorem C7_win_by_elimination (self : CheckersGame) (move : MoveRequest)
    (hw : self.winner = none) (h : (self.makeMove move).1 = true)
    (hz : (if self.currentPlayer = Player.red then (self.makeMove move).2.countPieces.2
      else (self.makeMove move).2.countPieces.1) = 0) :
    (self.makeMove move).2.winner = some self.currentPlayer ∧
      (self.makeMove move).2.currentPlayer = other self.currentPlayer ∧
      (self.makeMove move).2.mustJump = false ∧
      (self.makeMove move).2.selectedPiece = none := by
  obtain ⟨piece, m, _, hp, hown, hf, hafter⟩ := makeMove_of_true self move h
  obtain ⟨hcp, _, _, hwin⟩ := executeMove_fields self move piece m
  obtain ⟨piece2, hp2, _, hto⟩ := getPiece_to_after_makeMove self move h
  rw [hp] at hp2
  cases hp2
  have hboard : (self.makeMove move).2.board = (self.executeMove move piece m).board := by
    rw [hafter]; exact finishMove_board _ move m
  have hcount := countPieces_of_board _ _ hboard
  rw [hcount] at hz
  rw [getPiece_of_board _ _ hboard] at hto
  have hz2 : (if (self.executeMove move piece m).currentPlayer = Player.red then
      (self.executeMove move piece m).countPieces.2
      else (self.executeMove move piece m).countPieces.1) = 0 := by rw [hcp]; exact hz
  have hn : ¬ (m.type = MoveType.jump ∧
      (self.executeMove move piece m).canContinueJumping move.to_.1 move.to_.2 = true) := by
    rintro ⟨_, hc⟩
    obtain ⟨j, hj, ht⟩ := (canContinueJumping_iff _ _ _).1 hc
    exact no_jump_of_no_opponent _ hz2 _ _ j hj ht
  have hsw := finishMove_switch _ move m hn
  rw [hsw] at hafter
  obtain ⟨_, h2, h3, h4⟩ := checkWinCondition_board
    { self.executeMove move piece m with
      currentPlayer := other (self.executeMove move piece m).currentPlayer
      mustJump := false
      selectedPiece := none }
  refine ⟨?_, by rw [hafter, h2, hcp], by rw [hafter, h3], by rw [hafter, h4]⟩
  rw [hafter, checkWinCondition_winner _ (by rw [← hw, ← hwin])]
  have hc2 : ({ self.executeMove move piece m with
      currentPlayer := other (self.executeMove move piece m).currentPlayer
      mustJump := false
      selectedPiece := none } : CheckersGame).countPieces =
      (self.executeMove move piece m).countPieces := countPieces_of_board _ _ rfl
  rw [hc2]
  have hlow := promoted_toLowerCase piece move.to_.1
  unfold isOwnPiece at hown
  simp only [Bool.or_eq_true, Bool.and_eq_true, beq_iff_eq] at hown
  rcases hown with ⟨hc, hl⟩ | ⟨hc, hl⟩
  · rw [if_pos hc] at hz
    have hpos := countPieces_red_pos _ _ _ _ hto (by rw [hlow, hl])
    rw [if_neg (by omega), if_pos hz, hc]
  · rw [if_neg (by rw [hc]; exact fun h => by cases h)] at hz
    rw [if_pos hz, hc]

theorem C7_win_by_elimination_witness :
    loneJump.winner = none ∧ (loneJump.makeMove ⟨(3, 2), (1, 4)⟩).1 = true ∧
      (if loneJump.currentPlayer = Player.red then
          (loneJump.makeMove ⟨(3, 2), (1, 4)⟩).2.countPieces.2
        else (loneJump.makeMove ⟨(3, 2), (1, 4)⟩).2.countPieces.1) = 0 ∧
      ((loneJump.makeMove ⟨(3, 2), (1, 4)⟩).2.winner = some loneJump.currentPlayer ∧
        (loneJump.makeMove ⟨(3, 2), (1, 4)⟩).2.currentPlayer = other loneJump.currentPlayer ∧
        (loneJump.makeMove ⟨(3, 2), (1, 4)⟩).2.mustJump = false ∧
        (loneJump.makeMove ⟨(3, 2), (1, 4)⟩).2.selectedPiece = none) :=
  ⟨rfl, by decide, by decide,
    C7_win_by_elimination loneJump ⟨(3, 2), (1, 4)⟩ rfl (by decide) (by decide)⟩

/-- C8: with no winner set, if `makeMove` accepts a request and switches the
player, and both colours still have a piece: when the legal set of the player
now to move is empty the winner is the player who just moved, and when it is
not empty the winner stays unset. -/
theorem C8_win_by_stalemate (self : CheckersGame) (move : MoveRequest)
    (hw : self.winner = none) (h : (self.makeMove move).1 = true)
    (hs : (self.makeMove move).2.currentPlayer = other self.currentPlayer)
    (hr : 0 < (self.makeMove move).2.countPieces.1)
    (hb : 0 < (self.makeMove move).2.countPieces.2) :
    ((self.makeMove move).2.getAllValidMoves = [] →
        (self.makeMove move).2.winner = some self.currentPlayer) ∧
      ((self.makeMove move).2.getAllValidMoves ≠ [] →
        (self.makeMove move).2.winner = none) := by
  obtain ⟨piece, m, _, hp, hown, hf, hafter⟩ := makeMove_of_true self move h
  obtain ⟨hcp, _, _, hwin⟩ := executeMove_fields self move piece m
  have hn : ¬ (m.type = MoveType.jump ∧
      (self.executeMove move piece m).canContinueJumping move.to_.1 move.to_.2 = true) := by
    rintro ⟨hj, hc⟩
    rw [hafter, finishMove_continue _ move m hj hc] at hs
    simp only [hcp] at hs
    exact other_ne _ hs.symm
  rw [finishMove_switch _ move m hn] at hafter
  have hwn : ({ self.executeMove move piece m with
      currentPlayer := other (self.executeMove move piece m).currentPlayer
      mustJump := false
      selectedPiece := none } : CheckersGame).winner = none := by
    rw [← hw, ← hwin]
  have hwinner := checkWinCondition_winner _ hwn
  have heq := checkWinCondition_eq
    { self.executeMove move piece m with
      currentPlayer := other (self.executeMove move piece m).currentPlayer
      mustJump := false
      selectedPiece := none }
  have hmoves : (self.makeMove move).2.getAllValidMoves =
      ({ self.executeMove move piece m with
        currentPlayer := other (self.executeMove move piece m).currentPlayer
        mustJump := false
        selectedPiece := none } : CheckersGame).getAllValidMoves := by
    rw [hafter, heq]
    exact getAllValidMoves_winner _ _
  have hcount : (self.makeMove move).2.countPieces =
      ({ self.executeMove move piece m with
        currentPlayer := other (self.executeMove move piece m).currentPlayer
        mustJump := false
        selectedPiece := none } : CheckersGame).countPieces := by
    rw [hafter]
    exact countPieces_of_board _ _ (checkWinCondition_board _).1
  rw [hcount] at hr hb
  rw [hmoves, hafter, hwinner, if_neg (by omega), if_neg (by omega)]
  constructor
  · intro he
    rw [he]
    simp only [List.length_nil, if_true, hcp]
    cases self.currentPlayer <;> rfl
  · intro hne
    rw [if_neg]
    intro hl
    exact hne (List.length_eq_zero.1 hl)

theorem C8_win_by_stalemate_witness :
    (hemmedIn.winner = none ∧ (hemmedIn.makeMove ⟨(5, 0), (4, 1)⟩).1 = true ∧
      (hemmedIn.makeMove ⟨(5, 0), (4, 1)⟩).2.currentPlayer = other hemmedIn.currentPlayer ∧
      0 < (hemmedIn.makeMove ⟨(5, 0), (4, 1)⟩).2.countPieces.1 ∧
      0 < (hemmedIn.makeMove ⟨(5, 0), (4, 1)⟩).2.countPieces.2 ∧
      (hemmedIn.makeMove ⟨(5, 0), (4, 1)⟩).2.getAllValidMoves = [] ∧
      (hemmedIn.makeMove ⟨(5, 0), (4, 1)⟩).2.winner = some hemmedIn.currentPlayer) ∧
    ((CheckersGame.new.makeMove ⟨(5, 0), (4, 1)⟩).2.getAllValidMoves ≠ [] ∧
      (CheckersGame.new.makeMove ⟨(5, 0), (4, 1)⟩).2.winner = none) :=
  ⟨⟨rfl, by decide, by decide, by decide, by decide, by decide,
      (C8_win_by_stalemate hemmedIn ⟨(5, 0), (4, 1)⟩ rfl (by decide) (by decide)
        (by decide) (by decide)).1 (by decide)⟩,
    ⟨by decide,
      (C8_win_by_stalemate CheckersGame.new ⟨(5, 0), (4, 1)⟩ rfl (by decide) (by decide)
        (by decide) (by decide)).2 (by decide)⟩⟩

/-- C9: for every state `S` reachable from the starting position by `makeMove`
calls, `getBoardState()` on `S` returns a snapshot, and `loadBoardState` of that
snapshot into an engine in any prior state completes normally and leaves an
engine whose board, currentPlayer, mustJump, selectedPiece and winner are those
of `S`; `S` is the only typed state that engine represents. -/
theorem C9_snapshot_round_trip (S : CheckersGame) (_hS : Reachable S)
    (engine : EngineObject) :
    ∃ snapshot, S.toJS.getBoardState = .ok snapshot ∧
      engine.loadBoardState snapshot = (.ok (), S.toJS) ∧
      ∀ S' : CheckersGame, S'.toJS = (engine.loadBoardState snapshot).2 → S' = S := by
  refine ⟨_, getBoardState_toJS S, loadBoardState_snapshot S engine, ?_⟩
  intro S' h
  rw [loadBoardState_snapshot S engine] at h
  exact toJS_injective S' S h

theorem C9_snapshot_round_trip_witness :
    Reachable (CheckersGame.new.play openingChain) ∧
      (CheckersGame.new.play openingChain).mustJump = true ∧
      (CheckersGame.new.play openingChain).selectedPiece = some (3, 2) ∧
      ∃ snapshot, (CheckersGame.new.play openingChain).toJS.getBoardState = .ok snapshot ∧
        loneJump.toJS.loadBoardState snapshot =
          (.ok (), (CheckersGame.new.play openingChain).toJS) ∧
        ∀ S' : CheckersGame,
          S'.toJS = (loneJump.toJS.loadBoardState snapshot).2 →
            S' = CheckersGame.new.play openingChain :=
  ⟨reachable_play _ Reachable.start _, by decide, by decide,
    C9_snapshot_round_trip _ (reachable_play _ Reachable.start _) loneJump.toJS⟩

end CheckersGame

namespace EngineObject

/-- C10 as stated fails: the snapshot `corruptSnapshot` is malformed in every
field (board of one row of one unknown cell, unknown player, out-of-range
continuation, unknown winner), yet `loadBoardState` completes normally on the
engine of a new game and every field of the engine now holds the corrupt value. -/
theorem C10_corrupt_snapshot_is_applied :
    JSValue.validSnapshot JSValue.corruptSnapshot = false ∧
      (CheckersGame.new.toJS.loadBoardState JSValue.corruptSnapshot).1 = .ok () ∧
      (CheckersGame.new.toJS.loadBoardState JSValue.corruptSnapshot).2 =
        { board := JSValue.arr [JSValue.arr [JSValue.str "x"]]
          currentPlayer := JSValue.str "green"
          mustJump := JSValue.bool true
          selectedPiece := JSValue.arr [JSValue.num 9, JSValue.num 9]
          winner := JSValue.str "blue" } ∧
      (CheckersGame.new.toJS.loadBoardState JSValue.corruptSnapshot).2 ≠
        CheckersGame.new.toJS := by
  refine ⟨by decide, rfl, rfl, ?_⟩
  intro h
  have h1 := congrArg EngineObject.currentPlayer h
  have h2 : (CheckersGame.new.toJS.loadBoardState JSValue.corruptSnapshot).2.currentPlayer =
      JSValue.str "green" := rfl
  rw [h2] at h1
  simp only [CheckersGame.toJS, JSValue.str.injEq] at h1
  exact absurd h1 (by decide)

/-- C10 as amended: `loadBoardState` validates nothing.  It throws exactly when
the snapshot is not an object whose `board` is an array of arrays or strings,
and then no field of the engine has been assigned; on every other snapshot it
completes normally and the five fields hold the snapshot's values (a falsy
`mustJump`, `selectedPiece` or `winner` replaced by `false`, `null`, `null`),
whatever they are.  A snapshot is applied wholly or not at all. -/
theorem C10_load_is_all_or_nothing (self : EngineObject) (state : JSValue) :
    ((self.loadBoardState state).1 = .ok () ∨
        (self.loadBoardState state).1 = .error JSError.typeError) ∧
      ((self.loadBoardState state).1 = .error JSError.typeError →
        (self.loadBoardState state).2 = self) ∧
      ((self.loadBoardState state).1 = .ok () ↔
        ∃ props rows, state = JSValue.obj props ∧
          JSValue.lookup "board" props = JSValue.arr rows ∧
          ∀ row ∈ rows, (∃ items, row = JSValue.arr items) ∨ (∃ s, row = JSValue.str s)) ∧
      ((self.loadBoardState state).1 = .ok () →
        ∃ props rows copied, state = JSValue.obj props ∧
          JSValue.lookup "board" props = JSValue.arr rows ∧
          JSValue.copyRows rows = .ok copied ∧
          (self.loadBoardState state).2 =
            { board := JSValue.arr copied
              currentPlayer := JSValue.lookup "currentPlayer" props
              mustJump := (JSValue.lookup "mustJump" props).orElse (JSValue.bool false)
              selectedPiece := (JSValue.lookup "selectedPiece" props).orElse JSValue.null
              winner := (JSValue.lookup "winner" props).orElse JSValue.null }) := by
  refine ⟨?_, loadBoardState_error self state _, loadBoardState_ok_iff self state, ?_⟩
  · cases h : (self.loadBoardState state).1 with
    | ok u => exact Or.inl rfl
    | error e => cases e; exact Or.inr rfl
  · intro h
    obtain ⟨props, rows, rfl, hb, hall⟩ := (loadBoardState_ok_iff self state).1 h
    obtain ⟨copied, hc⟩ := (JSValue.copyRows_ok_iff rows).2 hall
    exact ⟨props, rows, copied, rfl, hb, hc, by rw [loadBoardState_ok self props rows copied hb hc]⟩

theorem C10_load_is_all_or_nothing_witness :
    ((CheckersGame.new.toJS.loadBoardState (JSValue.obj [("board", JSValue.num 8)])).1 =
        .error JSError.typeError ∧
      (CheckersGame.new.toJS.loadBoardState (JSValue.obj [("board", JSValue.num 8)])).2 =
        CheckersGame.new.toJS) ∧
    ((CheckersGame.new.toJS.loadBoardState JSValue.corruptSnapshot).1 = .ok () ∧
      ∃ props rows copied, JSValue.corruptSnapshot = JSValue.obj props ∧
        JSValue.lookup "board" props = JSValue.arr rows ∧
        JSValue.copyRows rows = .ok copied ∧
        (CheckersGame.new.toJS.loadBoardState JSValue.corruptSnapshot).2 =
          { board := JSValue.arr copied
            currentPlayer := JSValue.lookup "currentPlayer" props
            mustJump := (JSValue.lookup "mustJump" props).orElse (JSValue.bool false)
            selectedPiece := (JSValue.lookup "selectedPiece" props).orElse JSValue.null
            winner := (JSValue.lookup "winner" props).orElse JSValue.null }) :=
  ⟨⟨rfl, (C10_load_is_all_or_nothing CheckersGame.new.toJS
      (JSValue.obj [("board", JSValue.num 8)])).2.1 rfl⟩,
    ⟨rfl, (C10_load_is_all_or_nothing CheckersGame.new.toJS
      JSValue.corruptSnapshot).2.2.2 rfl⟩⟩

end EngineObject

namespace CheckersGame

/-- C12: `getValidMoves(row, col)` is empty when the square is empty, out of
range, or holds a piece that is not the current player's; otherwise its members
are exactly, over the row directions of the piece (`-1` for a red man, `+1` for
a black man, both for a king) and the column directions `-1` and `+1`: the step
to the adjacent square when that square is in range and empty (no captures), and
the jump to the square two away when that square is in range and empty and the
adjacent square holds an opponent piece, capturing exactly the adjacent square,
which lies midway between `from` and `to` on both axes. -/
theorem C12_getValidMoves_characterisation (self : CheckersGame) (row col : Int) :
    (self.getPiece row col = none → self.getValidMoves row col = []) ∧
      (¬ (0 ≤ row ∧ row < 8 ∧ 0 ≤ col ∧ col < 8) → self.getValidMoves row col = []) ∧
      (∀ piece, self.getPiece row col = some piece → self.isOwnPiece (some piece) = false →
        self.getValidMoves row col = []) ∧
      (directions Piece.r = [-1] ∧ directions Piece.b = [1] ∧
        directions Piece.R = [-1, 1] ∧ directions Piece.B = [-1, 1]) ∧
      (∀ piece, self.getPiece row col = some piece → self.isOwnPiece (some piece) = true →
        ∀ m, m ∈ self.getValidMoves row col ↔
          ∃ rowDir ∈ directions piece, ∃ colDir : Int, (colDir = -1 ∨ colDir = 1) ∧
            ((m = { from_ := (row, col), to_ := (row + rowDir, col + colDir),
                    type := MoveType.move, captures := [] } ∧
                (0 ≤ row + rowDir ∧ row + rowDir < 8 ∧ 0 ≤ col + colDir ∧ col + colDir < 8) ∧
                self.getPiece (row + rowDir) (col + colDir) = none) ∨
              (m = { from_ := (row, col), to_ := (row + rowDir * 2, col + colDir * 2),
                     type := MoveType.jump, captures := [(row + rowDir, col + colDir)] } ∧
                (0 ≤ row + rowDir * 2 ∧ row + rowDir * 2 < 8 ∧
                  0 ≤ col + colDir * 2 ∧ col + colDir * 2 < 8) ∧
                self.isOpponentPiece (self.getPiece (row + rowDir) (col + colDir)) = true ∧
                self.getPiece (row + rowDir * 2) (col + colDir * 2) = none))) ∧
      (∀ m ∈ self.getValidMoves row col, m.type = MoveType.jump →
        ∃ mid, m.captures = [mid] ∧ 2 * mid.1 = m.from_.1 + m.to_.1 ∧
          2 * mid.2 = m.from_.2 + m.to_.2) := by
  refine ⟨getValidMoves_of_none self row col, ?_, ?_, ⟨rfl, rfl, rfl, rfl⟩, ?_, ?_⟩
  · intro h
    exact getValidMoves_of_none self row col (getPiece_outOfRange self row col h)
  · intro piece hp hown
    exact getValidMoves_of_not_own self row col piece hp hown
  · intro piece hp hown m
    rw [mem_getValidMoves]
    constructor
    · rintro ⟨piece2, hp2, _, rowDir, hrd, colDir, hcd, hm⟩
      rw [hp] at hp2
      cases hp2
      exact ⟨rowDir, hrd, colDir, hcd, (mem_probeDirection self row col rowDir colDir m).1 hm⟩
    · rintro ⟨rowDir, hrd, colDir, hcd, hm⟩
      exact ⟨piece, hp, hown, rowDir, hrd, colDir, hcd,
        (mem_probeDirection self row col rowDir colDir m).2 hm⟩
  · intro m hm hj
    obtain ⟨piece, _, _, rowDir, _, colDir, _, hmem⟩ := (mem_getValidMoves self row col m).1 hm
    rcases (mem_probeDirection self row col rowDir colDir m).1 hmem with ⟨he, _⟩ | ⟨he, _⟩
    · rw [he] at hj; cases hj
    · refine ⟨(row + rowDir, col + colDir), by rw [he], ?_, ?_⟩
      · rw [he]; simp only; ring
      · rw [he]; simp only; ring

theorem C12_getValidMoves_characterisation_witness :
    (loneJump.getPiece 0 0 = none ∧ loneJump.getValidMoves 0 0 = []) ∧
      (¬ (0 ≤ (8 : Int) ∧ (8 : Int) < 8 ∧ 0 ≤ (0 : Int) ∧ (0 : Int) < 8) ∧
        loneJump.getValidMoves 8 0 = []) ∧
      (loneJump.getPiece 2 3 = some Piece.b ∧ loneJump.isOwnPiece (some Piece.b) = false ∧
        loneJump.getValidMoves 2 3 = []) ∧
      (loneJump.getPiece 3 2 = some Piece.r ∧ loneJump.isOwnPiece (some Piece.r) = true ∧
        ({ from_ := (3, 2), to_ := (1, 4), type := MoveType.jump, captures := [(2, 3)] } : Move) ∈
          loneJump.getValidMoves 3 2) :=
  ⟨⟨by decide, (C12_getValidMoves_characterisation loneJump 0 0).1 (by decide)⟩,
    ⟨by decide, (C12_getValidMoves_characterisation loneJump 8 0).2.1 (by decide)⟩,
    ⟨by decide, by decide,
      (C12_getValidMoves_characterisation loneJump 2 3).2.2.1 Piece.b (by decide) (by decide)⟩,
    ⟨by decide, by decide,
      ((C12_getValidMoves_characterisation loneJump 3 2).2.2.2.2.1 Piece.r (by decide)
        (by decide) _).2
        ⟨-1, by decide, 1, Or.inr rfl, Or.inr ⟨by decide, by decide, by decide, by decide⟩⟩⟩⟩

/-- C13: a newly constructed engine, and every engine after `reset()` whatever
its prior state, is in the starting position: a cell holds a black man iff its
row is at most 2 and row+col is odd, a red man iff its row is at least 5 and
row+col is odd, and is empty otherwise (12 black men, 12 red men, 40 empty
cells); red is to move, with no continuation and no winner. -/
theorem C13_starting_position :
    (∀ self : CheckersGame, self.reset = CheckersGame.new) ∧
      (∀ row ∈ indices, ∀ col ∈ indices,
        (CheckersGame.new.getPiece row col = some Piece.b ↔ (row ≤ 2 ∧ (row + col) % 2 = 1)) ∧
        (CheckersGame.new.getPiece row col = some Piece.r ↔ (row ≥ 5 ∧ (row + col) % 2 = 1)) ∧
        (CheckersGame.new.getPiece row col = none ↔
          ¬ ((row ≤ 2 ∨ row ≥ 5) ∧ (row + col) % 2 = 1))) ∧
      (indices.flatMap (fun row => indices.map (fun col =>
          CheckersGame.new.getPiece row col))).count (some Piece.b) = 12 ∧
      (indices.flatMap (fun row => indices.map (fun col =>
          CheckersGame.new.getPiece row col))).count (some Piece.r) = 12 ∧
      (indices.flatMap (fun row => indices.map (fun col =>
          CheckersGame.new.getPiece row col))).count none = 40 ∧
      CheckersGame.new.countPieces = (12, 12) ∧
      CheckersGame.new.currentPlayer = Player.red ∧
      CheckersGame.new.mustJump = false ∧
      CheckersGame.new.selectedPiece = none ∧
      CheckersGame.new.winner = none := by
  refine ⟨fun _ => rfl, by decide, by decide, by decide, by decide, by decide,
    rfl, rfl, rfl, rfl⟩

/-- C14: at the starting position with red to move `getAllValidMoves()` returns
exactly 7 moves, all of them steps and none a jump. -/
theorem C14_opening_move_count :
    CheckersGame.new.getAllValidMoves.length = 7 ∧
      (∀ m ∈ CheckersGame.new.getAllValidMoves, m.type = MoveType.move) ∧
      (CheckersGame.new.getAllValidMoves.filter (fun m => m.type == MoveType.jump)).length = 0 := by
  decide

/-- C16: for every board and integer pair, `getPiece(row, col)` returns empty
when `row` or `col` lies outside `0..7`, and the content of the cell when both
lie in `0..7`. -/
theorem C16_getPiece_total (self : CheckersGame) (row col : Int) :
    ((row < 0 ∨ row > 7 ∨ col < 0 ∨ col > 7) → self.getPiece row col = none) ∧
      ((0 ≤ row ∧ row ≤ 7 ∧ 0 ≤ col ∧ col ≤ 7) →
        ∃ i j : Fin 8, (i.val : Int) = row ∧ (j.val : Int) = col ∧
          self.getPiece row col = self.board i j) ∧
      (∀ i j : Fin 8, self.getPiece (i.val : Int) (j.val : Int) = self.board i j) := by
  refine ⟨?_, ?_, ?_⟩
  · intro h
    exact getPiece_outOfRange self row col (by omega)
  · intro h
    refine ⟨Fin.ofNat row.toNat, Fin.ofNat col.toNat, fin_val_ofNat row h.1 (by omega),
      fin_val_ofNat col h.2.2.1 (by omega), ?_⟩
    rw [getPiece_inRange self row col (by omega)]
    rfl
  · intro i j
    have hi := i.isLt
    have hj := j.isLt
    rw [getPiece_inRange self _ _ (by omega)]
    unfold boardAt
    congr 1
    · ext; simp [Fin.ofNat]
    · ext; simp [Fin.ofNat]

theorem C16_getPiece_total_witness :
    (((-1 : Int) < 0 ∨ (-1 : Int) > 7 ∨ (3 : Int) < 0 ∨ (3 : Int) > 7) ∧
        CheckersGame.new.getPiece (-1) 3 = none) ∧
      ((0 ≤ (5 : Int) ∧ (5 : Int) ≤ 7 ∧ 0 ≤ (0 : Int) ∧ (0 : Int) ≤ 7) ∧
        ∃ i j : Fin 8, (i.val : Int) = 5 ∧ (j.val : Int) = 0 ∧
          CheckersGame.new.getPiece 5 0 = CheckersGame.new.board i j) :=
  ⟨⟨by decide, (C16_getPiece_total CheckersGame.new (-1) 3).1 (by decide)⟩,
    ⟨by decide, (C16_getPiece_total CheckersGame.new 5 0).2.1 (by decide)⟩⟩

/-- C19: crowning does not end the turn.  In the position with a red man at
`[2,1]` and black men at `[1,2]` and `[1,4]`, the request `[2,1]` to `[0,3]` is
accepted as a jump, the man is crowned on `[0,3]`, `currentPlayer` stays red, the
continuation is set on `[0,3]`, and the legal set is the backward jump of the
new king to `[2,5]`; a red man on `[0,3]` would have had no move at all. -/
theorem C19_crowning_continues_turn :
    ∃ (self : CheckersGame) (move : MoveRequest) (fullMove next : Move),
      self.getPiece move.from_.1 move.from_.2 = some Piece.r ∧
      move.to_.1 = 0 ∧
      self.findMove move = some fullMove ∧
      fullMove.type = MoveType.jump ∧
      (self.makeMove move).1 = true ∧
      (self.makeMove move).2.getPiece move.to_.1 move.to_.2 = some Piece.R ∧
      (self.makeMove move).2.currentPlayer = self.currentPlayer ∧
      (self.makeMove move).2.mustJump = true ∧
      (self.makeMove move).2.selectedPiece = some move.to_ ∧
      (self.makeMove move).2.winner = none ∧
      (self.makeMove move).2.getAllValidMoves = [next] ∧
      next.type = MoveType.jump ∧
      next.from_ = move.to_ ∧
      next.to_.1 = move.to_.1 + 2 ∧
      (((self.makeMove move).2.setPiece move.to_.1 move.to_.2 (some Piece.r)).getValidMoves
        move.to_.1 move.to_.2 = []) :=
  ⟨crownChain, ⟨(2, 1), (0, 3)⟩, ⟨(2, 1), (0, 3), MoveType.jump, [(1, 2)]⟩,
    ⟨(0, 3), (2, 5), MoveType.jump, [(1, 4)]⟩,
    by decide, by decide, by decide, by decide, by decide, by decide, by decide, by decide,
    by decide, by decide, by decide, by decide, by decide, by decide, by decide⟩

end CheckersGame

/-- C15: the square naming is an exact bijection between the 64 squares and the
identifiers `a1..h8`: for `row` and `col` in `0..7`, `rowColToSquare(row, col)` is
the file letter of column `col` followed by the rank digit `8 - row`, and
`squareToRowCol` maps it back to `[row, col]`; and for every identifier made of a
file `a..h` and a rank `1..8`, `rowColToSquare` of its `squareToRowCol` is the
identifier again. -/
theorem C15_square_naming_bijection :
    (∀ row ∈ CheckersGame.indices, ∀ col ∈ CheckersGame.indices,
      (∃ f ∈ files, ∃ k ∈ ranks, (files.indexOf f : Int) = col ∧ k = 8 - row ∧
        rowColToSquare row col = f ++ toString k) ∧
      squareToRowCol (rowColToSquare row col) = (some row, col)) ∧
    (∀ f ∈ files, ∀ k ∈ ranks,
      ∃ row ∈ CheckersGame.indices, ∃ col ∈ CheckersGame.indices,
        squareToRowCol (f ++ toString k) = (some row, col) ∧
        rowColToSquare row col = f ++ toString k) := by
  decide

namespace CheckersGame

/-- C11: in every state reachable from the starting position by `makeMove`
calls, every occupied square has `row + col` odd, there are at most 12 red and
at most 12 black pieces, no red man stands on row 0 and no black man stands on
row 7. -/
theorem C11_reachable_board_invariant (self : CheckersGame) (h : Reachable self) :
    (∀ row col piece, self.getPiece row col = some piece → (row + col) % 2 = 1) ∧
      self.countPieces.1 ≤ 12 ∧
      self.countPieces.2 ≤ 12 ∧
      (∀ col, self.getPiece 0 col ≠ some Piece.r) ∧
      (∀ col, self.getPiece 7 col ≠ some Piece.b) :=
  boardInvariant_of_reachable self h

theorem C11_reachable_board_invariant_witness :
    Reachable (CheckersGame.new.play openingChain) ∧
      (CheckersGame.new.play openingChain).countPieces = (11, 11) ∧
      ((∀ row col piece, (CheckersGame.new.play openingChain).getPiece row col = some piece →
          (row + col) % 2 = 1) ∧
        (CheckersGame.new.play openingChain).countPieces.1 ≤ 12 ∧
        (CheckersGame.new.play openingChain).countPieces.2 ≤ 12 ∧
        (∀ col, (CheckersGame.new.play openingChain).getPiece 0 col ≠ some Piece.r) ∧
        (∀ col, (CheckersGame.new.play openingChain).getPiece 7 col ≠ some Piece.b)) :=
  ⟨reachable_play _ Reachable.start _, by decide,
    C11_reachable_board_invariant _ (reachable_play _ Reachable.start _)⟩

/-- C17: when `makeMove` accepts a request with matched move `m` made by
`piece`: a step captures nothing and a jump captures one square, which held an
opponent piece; every cell other than `from`, `to` and the captured square is
unchanged; `from` and the captured square are empty afterwards and `to` holds
the moved piece (promoted if applicable); `countPieces()` reports the mover's
count unchanged and the opponent's count lower by exactly 1 for a jump and by 0
for a step. -/
theorem C17_move_frame (self : CheckersGame) (move : MoveRequest)
    (h : (self.makeMove move).1 = true) :
    ∃ piece m,
      self.getPiece move.from_.1 move.from_.2 = some piece ∧
      self.findMove move = some m ∧
      (m.type = MoveType.move → m.captures = []) ∧
      (m.type = MoveType.jump → ∃ mid, m.captures = [mid] ∧
        self.isOpponentPiece (self.getPiece mid.1 mid.2) = true) ∧
      (∀ r c, (r, c) ≠ move.from_ → (r, c) ≠ move.to_ →
        ¬ (m.type = MoveType.jump ∧ (r, c) ∈ m.captures) →
        (self.makeMove move).2.getPiece r c = self.getPiece r c) ∧
      (self.makeMove move).2.getPiece move.from_.1 move.from_.2 = none ∧
      (m.type = MoveType.jump → ∀ cap ∈ m.captures,
        (self.makeMove move).2.getPiece cap.1 cap.2 = none) ∧
      (self.makeMove move).2.getPiece move.to_.1 move.to_.2 =
        some (promoted piece move.to_.1) ∧
      (self.currentPlayer = Player.red →
        (self.makeMove move).2.countPieces.1 = self.countPieces.1 ∧
        (self.makeMove move).2.countPieces.2 + (if m.type = MoveType.jump then 1 else 0) =
          self.countPieces.2) ∧
      (self.currentPlayer = Player.black →
        (self.makeMove move).2.countPieces.2 = self.countPieces.2 ∧
        (self.makeMove move).2.countPieces.1 + (if m.type = MoveType.jump then 1 else 0) =
          self.countPieces.1) := by
  obtain ⟨piece, m, _, hp, _, hf, hafter⟩ := makeMove_of_true self move h
  obtain ⟨hto, hne, hcap⟩ := legal_request self move m hf
  obtain ⟨hm, hfrom, hmto⟩ := findMove_some self move m hf
  obtain ⟨piece2, rowDir, colDir, _, _, _, _, _, _, hshape⟩ := legal_move_shape self m hm
  rw [hfrom, hmto] at hshape
  have hboard : (self.makeMove move).2.board = (self.executeMove move piece m).board := by
    rw [hafter]; exact finishMove_board _ move m
  have hcell : ∀ r c, (self.makeMove move).2.getPiece r c =
      if (r, c) = move.to_ then some (promoted piece move.to_.1)
      else if (r, c) = move.from_ then none
      else if m.type = MoveType.jump ∧ (r, c) ∈ m.captures then none
      else self.getPiece r c := by
    intro r c
    rw [getPiece_of_board _ _ hboard, getPiece_executeMove self move piece m r c hto hne hcap]
  obtain ⟨captured, hc1, hc2, hstep, hjump⟩ := countPieces_executeMove self move piece m hp hf
  rw [← countPieces_of_board _ _ hboard] at hc1 hc2
  have hcount : ∀ (x y : Nat), (m.type = MoveType.move → x = 0 ∧ y = 0) →
      (m.type = MoveType.jump → x = 0 ∧ y = 1) →
      x = 0 ∧ y = (if m.type = MoveType.jump then 1 else 0) := by
    intro x y h1 h2
    cases hty : m.type with
    | move => simpa using h1 hty
    | jump => simpa using h2 hty
  refine ⟨piece, m, hp, hf, ?_, ?_, ?_, ?_, ?_, ?_, ?_, ?_⟩
  · intro hty
    rcases hshape with ⟨_, _, hc⟩ | ⟨hj, _⟩
    · exact hc
    · rw [hty] at hj; cases hj
  · intro hty
    rcases hshape with ⟨hs, _⟩ | ⟨_, _, hc, ho⟩
    · rw [hty] at hs; cases hs
    · exact ⟨_, hc, ho⟩
  · intro r c h1 h2 h3
    rw [hcell, if_neg h2, if_neg h1, if_neg h3]
  · rw [hcell, if_neg (fun he => hne he), if_pos rfl]
  · intro hty cap hmem
    rw [hcell]
    have hne2 : ¬ ((cap.1, cap.2) = move.to_) := fun he => hcap hty (he ▸ hmem)
    rw [if_neg hne2]
    split_ifs
    · rfl
    · rfl
    · rename_i hn
      exact absurd ⟨hty, hmem⟩ hn
  · rw [hcell, if_pos rfl]
  · intro hred
    have e := hcount (redIn captured) (blackIn captured)
      (fun hty => by rw [hstep hty]; exact ⟨rfl, rfl⟩)
      (fun hty => (count_of_opponent self captured (hjump hty)).1 hred)
    rw [← e.2]
    exact ⟨by omega, hc2⟩
  · intro hblack
    have e := hcount (blackIn captured) (redIn captured)
      (fun hty => by rw [hstep hty]; exact ⟨rfl, rfl⟩)
      (fun hty => ((count_of_opponent self captured (hjump hty)).2 hblack).symm)
    rw [← e.2]
    exact ⟨by omega, hc1⟩

theorem C17_move_frame_witness :
    (loneJump.makeMove ⟨(3, 2), (1, 4)⟩).1 = true ∧
      ∃ piece m,
        loneJump.getPiece 3 2 = some piece ∧
        loneJump.findMove ⟨(3, 2), (1, 4)⟩ = some m ∧
        (m.type = MoveType.move → m.captures = []) ∧
        (m.type = MoveType.jump → ∃ mid, m.captures = [mid] ∧
          loneJump.isOpponentPiece (loneJump.getPiece mid.1 mid.2) = true) ∧
        (∀ r c, (r, c) ≠ ((3, 2) : Int × Int) → (r, c) ≠ ((1, 4) : Int × Int) →
          ¬ (m.type = MoveType.jump ∧ (r, c) ∈ m.captures) →
          (loneJump.makeMove ⟨(3, 2), (1, 4)⟩).2.getPiece r c = loneJump.getPiece r c) ∧
        (loneJump.makeMove ⟨(3, 2), (1, 4)⟩).2.getPiece 3 2 = none ∧
        (m.type = MoveType.jump → ∀ cap ∈ m.captures,
          (loneJump.makeMove ⟨(3, 2), (1, 4)⟩).2.getPiece cap.1 cap.2 = none) ∧
        (loneJump.makeMove ⟨(3, 2), (1, 4)⟩).2.getPiece 1 4 = some (promoted piece 1) ∧
        (loneJump.currentPlayer = Player.red →
          (loneJump.makeMove ⟨(3, 2), (1, 4)⟩).2.countPieces.1 = loneJump.countPieces.1 ∧
          (loneJump.makeMove ⟨(3, 2), (1, 4)⟩).2.countPieces.2 +
              (if m.type = MoveType.jump then 1 else 0) =
            loneJump.countPieces.2) ∧
        (loneJump.currentPlayer = Player.black →
          (loneJump.makeMove ⟨(3, 2), (1, 4)⟩).2.countPieces.2 = loneJump.countPieces.2 ∧
          (loneJump.makeMove ⟨(3, 2), (1, 4)⟩).2.countPieces.1 +
              (if m.type = MoveType.jump then 1 else 0) =
            loneJump.countPieces.1) :=
  ⟨by decide, C17_move_frame loneJump ⟨(3, 2), (1, 4)⟩ (by decide)⟩

/-- C18: in every state reachable from the starting position by `makeMove`
calls, if no winner is set then `getAllValidMoves()` is not empty; when a
continuation is pending this means a jump from the continuation square exists. -/
theorem C18_game_in_play_has_a_move (self : CheckersGame) (h : Reachable self)
    (hw : self.winner = none) :
    self.getAllValidMoves ≠ [] ∧
      (∀ p, self.mustJump = true → self.selectedPiece = some p →
        ∃ j ∈ self.getValidMoves p.1 p.2, j.type = MoveType.jump) := by
  have hlive := live_of_reachable self h hw
  refine ⟨hlive, ?_⟩
  intro p hm hs
  rw [getAllValidMoves_continuation self p hm hs] at hlive
  obtain ⟨j, hj⟩ := List.exists_mem_of_ne_nil _ hlive
  obtain ⟨h1, h2⟩ := List.mem_filter.1 hj
  exact ⟨j, h1, by simpa using h2⟩

theorem C18_game_in_play_has_a_move_witness :
    Reachable (CheckersGame.new.play openingChain) ∧
      (CheckersGame.new.play openingChain).winner = none ∧
      (CheckersGame.new.play openingChain).mustJump = true ∧
      (CheckersGame.new.play openingChain).selectedPiece = some (3, 2) ∧
      ((CheckersGame.new.play openingChain).getAllValidMoves ≠ [] ∧
        (∀ p, (CheckersGame.new.play openingChain).mustJump = true →
          (CheckersGame.new.play openingChain).selectedPiece = some p →
          ∃ j ∈ (CheckersGame.new.play openingChain).getValidMoves p.1 p.2,
            j.type = MoveType.jump)) :=
  ⟨reachable_play _ Reachable.start _, by decide, by decide, by decide,
    C18_game_in_play_has_a_move _ (reachable_play _ Reachable.start _) (by decide)⟩

end CheckersGame
